import Mathlib

/-!
Verification development for the Kubespray deployment-orchestration service
(`src/kubespray/src`): the configuration/inventory generator
(`services/kubespray_service.py`) and the deployment API with its admission
slot, process supervisor, status store and transport adapters
(`api/deployment.py`).

Conventions of the embedding:
* YAML documents are modelled by the inductive `YVal`; Python dicts become
  insertion-ordered association lists (`YDict`), which is exactly the
  observable behaviour of `dict` iteration/update in CPython.
* Redis is modelled by pure stores (`Store`); `setex` becomes a write that
  stamps the fixed TTL on the record.
* The cooperative async scheduler is modelled by a small-step relation whose
  atomic steps are the code segments between `await` points.
-/

namespace CKEP

/-- YAML value, as produced by `yaml.safe_load`: scalars, sequences and
mappings (mappings with string keys, in insertion order, exactly like the
Python `dict` the service manipulates). -/
inductive YVal where
  | ynull : YVal
  | ybool : Bool → YVal
  | yint : Int → YVal
  | ystr : String → YVal
  | ylist : List YVal → YVal
  | ymap : List (String × YVal) → YVal

/-- Insertion-ordered dictionary with string keys (a Python `dict`). -/
abbrev YDict := List (String × YVal)

/-- `d[k]` lookup (first matching key; Python dicts have unique keys). -/
def lookupA : YDict → String → Option YVal
  | [], _ => none
  | (k0, v0) :: rest, k => if k0 = k then some v0 else lookupA rest k

/-- `d[k] = v` on a Python dict: overwrite in place if the key exists
(keeping its position), otherwise append at the end. -/
def upsert : YDict → String → YVal → YDict
  | [], k, v => [(k, v)]
  | (k0, v0) :: rest, k, v =>
    if k0 = k then (k0, v) :: rest else (k0, v0) :: upsert rest k v

/-- `KubesprayInventoryService._deep_merge`: `result = base.copy()`, then for
each `(key, value)` of `override` in order, if `key` is present in the
accumulated result with a dict value and `value` is a dict, recurse,
otherwise assign `value` wholesale.  The accumulated result is threaded as
the first argument, exactly like the mutated `result` dict in the source. -/
def deep_merge : YDict → YDict → YDict
  | acc, [] => acc
  | acc, (k, YVal.ymap om) :: rest =>
    (match lookupA acc k with
      | some (YVal.ymap bm) => deep_merge (upsert acc k (YVal.ymap (deep_merge bm om))) rest
      | _ => deep_merge (upsert acc k (YVal.ymap om)) rest)
  | acc, (k, v) :: rest => deep_merge (upsert acc k v) rest
termination_by _acc o => sizeOf o
decreasing_by all_goals simp_wf <;> omega

theorem lookupA_upsert (m : YDict) (k : String) (v : YVal) (k' : String) :
    lookupA (upsert m k v) k' = if k = k' then some v else lookupA m k' := by
  induction m with
  | nil => simp [upsert, lookupA]
  | cons hd rest ih =>
    obtain ⟨k0, v0⟩ := hd
    by_cases h0 : k0 = k
    · subst h0
      simp only [upsert, if_pos rfl, lookupA]
      by_cases h1 : k0 = k' <;> simp [h1]
    · simp only [upsert, if_neg h0, lookupA]
      by_cases h1 : k0 = k'
      · subst h1
        have hne2 : ¬ k = k0 := fun h => h0 h.symm
        simp [hne2]
      · simp [h1, ih]

theorem lookupA_eq_none_of_not_mem (m : YDict) (k : String)
    (h : k ∉ m.map Prod.fst) : lookupA m k = none := by
  induction m with
  | nil => rfl
  | cons hd rest ih =>
    obtain ⟨k0, v0⟩ := hd
    simp only [List.map_cons, List.mem_cons] at h
    push_neg at h
    simp only [lookupA]
    rw [if_neg (fun he => h.1 he.symm)]
    exact ih h.2

/-- The key-by-key reading of `_deep_merge`, written from the spec's
description of deep merge: absent override key keeps the base value; when
both sides are mappings the merge recurses; otherwise (scalars, lists, or a
base key that is absent or non-mapping) the override value replaces the base
value wholesale. -/
def mergeLookupSpec (b o : Option YVal) : Option YVal :=
  match o with
  | none => b
  | some (YVal.ymap om) =>
    match b with
    | some (YVal.ymap bm) => some (YVal.ymap (deep_merge bm om))
    | _ => some (YVal.ymap om)
  | some v => some v

theorem lookupA_deep_merge (o : YDict) (b : YDict) (k : String)
    (hnd : (o.map Prod.fst).Nodup) :
    lookupA (deep_merge b o) k = mergeLookupSpec (lookupA b k) (lookupA o k) := by
  induction o generalizing b with
  | nil => simp [deep_merge, mergeLookupSpec, lookupA]
  | cons hd rest ih =>
    obtain ⟨k0, v0⟩ := hd
    simp only [List.map_cons, List.nodup_cons] at hnd
    obtain ⟨hk0, hndr⟩ := hnd
    by_cases hkk : k0 = k
    · subst hkk
      have hrest : lookupA rest k0 = none := lookupA_eq_none_of_not_mem rest k0 hk0
      cases v0 with
      | ymap om =>
        simp only [deep_merge]
        cases hb : lookupA b k0 with
        | none =>
          simp only [hb]
          rw [ih _ hndr, lookupA_upsert, if_pos rfl, hrest]
          simp [mergeLookupSpec, lookupA, hb]
        | some bv =>
          cases bv <;>
            · simp only [hb]
              rw [ih _ hndr, lookupA_upsert, if_pos rfl, hrest]
              simp [mergeLookupSpec, lookupA, hb]
      | ynull =>
        simp only [deep_merge]
        rw [ih _ hndr, lookupA_upsert, if_pos rfl, hrest]
        simp [mergeLookupSpec, lookupA]
      | ybool bb =>
        simp only [deep_merge]
        rw [ih _ hndr, lookupA_upsert, if_pos rfl, hrest]
        simp [mergeLookupSpec, lookupA]
      | yint n =>
        simp only [deep_merge]
        rw [ih _ hndr, lookupA_upsert, if_pos rfl, hrest]
        simp [mergeLookupSpec, lookupA]
      | ystr s =>
        simp only [deep_merge]
        rw [ih _ hndr, lookupA_upsert, if_pos rfl, hrest]
        simp [mergeLookupSpec, lookupA]
      | ylist xs =>
        simp only [deep_merge]
        rw [ih _ hndr, lookupA_upsert, if_pos rfl, hrest]
        simp [mergeLookupSpec, lookupA]
    · have hne : ∀ (w : YVal), lookupA (upsert b k0 w) k = lookupA b k := by
        intro w
        rw [lookupA_upsert, if_neg hkk]
      cases v0 with
      | ymap om =>
        simp only [deep_merge]
        cases hb : lookupA b k0 with
        | none =>
          simp only [hb]
          rw [ih _ hndr, hne]
          simp [lookupA, hkk]
        | some bv =>
          cases bv <;>
            · simp only [hb]
              rw [ih _ hndr, hne]
              simp [lookupA, hkk]
      | ynull =>
        simp only [deep_merge]
        rw [ih _ hndr, hne]
        simp [lookupA, hkk]
      | ybool bb =>
        simp only [deep_merge]
        rw [ih _ hndr, hne]
        simp [lookupA, hkk]
      | yint n =>
        simp only [deep_merge]
        rw [ih _ hndr, hne]
        simp [lookupA, hkk]
      | ystr s =>
        simp only [deep_merge]
        rw [ih _ hndr, hne]
        simp [lookupA, hkk]
      | ylist xs =>
        simp only [deep_merge]
        rw [ih _ hndr, hne]
        simp [lookupA, hkk]

/-- Python `str.strip('/')`: remove leading and trailing slash characters. -/
def stripSlashes (s : String) : String :=
  String.mk (((s.data.dropWhile (fun c => c = '/')).reverse.dropWhile
    (fun c => c = '/')).reverse)

/-- The parts of the template/override file tree that
`_generate_k8s_cluster_config` reads: the parsed content of
`templates/base.yml` when that file exists, and for each
`exam_type`/`set_id` pair the parsed content of
`exam_type/set_id/base-overwrite.yml` when it exists. -/
structure QuestionFS where
  base_template : Option YDict
  overwrite_file : String → String → Option YDict

/-- `KubesprayInventoryService._generate_k8s_cluster_config`: load the base
template (empty mapping when the file is missing or empty); when a question
set id is given, strip slashes, split on `/`, and if there are at least two
parts and the derived `base-overwrite.yml` exists, deep-merge it over the
base; in every other case return the base unchanged. -/
def generate_k8s_cluster_config (fs : QuestionFS) (question_set_id : Option String) :
    YDict :=
  let base_config := fs.base_template.getD []
  match question_set_id with
  | none => base_config
  | some q =>
    match (stripSlashes q).splitOn "/" with
    | exam_type :: set_id :: _ =>
      match fs.overwrite_file exam_type set_id with
      | some overwrite_config => deep_merge base_config overwrite_config
      | none => base_config
    | _ => base_config

/-- The override file that `question_set_id` points at is absent (whatever
the id splits into). -/
def overwriteMissing (fs : QuestionFS) (q : String) : Prop :=
  ∀ exam_type set_id rest,
    (stripSlashes q).splitOn "/" = exam_type :: set_id :: rest →
    fs.overwrite_file exam_type set_id = none

/-- C2: Deep-merge correctness of the cluster-options generator.  For every
base mapping and override mapping (with the override's keys distinct, as
Python dict keys are): looking up any key in the merged document follows the
deep-merge rule — recurse when both values are mappings, otherwise the
override value replaces the base value wholesale; in particular a list value
from the override replaces the base list, never concatenates.  The spec's
example holds: base a maps-to (x 1, y 2) merged with override a maps-to
(y 9) yields a maps-to (x 1, y 9).  And when the override file for the given
question_set_id does not exist, the generator returns the base document
unmodified and raises no error (the function is total). -/
theorem c2_deep_merge_correct (b o : YDict) (k : String)
    (hnd : (o.map Prod.fst).Nodup)
    (fs : QuestionFS) (q : String) (hmiss : overwriteMissing fs q) :
    lookupA (deep_merge b o) k = mergeLookupSpec (lookupA b k) (lookupA o k)
    ∧ (∀ xs, lookupA o k = some (YVal.ylist xs) →
        lookupA (deep_merge b o) k = some (YVal.ylist xs))
    ∧ deep_merge [("a", YVal.ymap [("x", YVal.yint 1), ("y", YVal.yint 2)])]
        [("a", YVal.ymap [("y", YVal.yint 9)])]
      = [("a", YVal.ymap [("x", YVal.yint 1), ("y", YVal.yint 9)])]
    ∧ generate_k8s_cluster_config fs (some q) = fs.base_template.getD [] := by
  refine ⟨lookupA_deep_merge o b k hnd, ?_, ?_, ?_⟩
  · intro xs hx
    rw [lookupA_deep_merge o b k hnd, hx]
    cases hb : lookupA b k <;> simp [mergeLookupSpec]
  · simp [deep_merge, upsert, lookupA]
  · unfold generate_k8s_cluster_config
    cases hsp : (stripSlashes q).splitOn "/" with
    | nil => simp [hsp]
    | cons a tl =>
      cases tl with
      | nil => simp [hsp]
      | cons a2 tl2 => simp [hsp, hmiss a a2 tl2 hsp]

/-- Concrete base document for the C2 witness. -/
def c2ExBase : YDict := [("a", YVal.ymap [("x", YVal.yint 1), ("y", YVal.yint 2)])]

/-- Concrete override document for the C2 witness. -/
def c2ExOver : YDict := [("a", YVal.ymap [("y", YVal.yint 9)])]

/-- Concrete file tree (base template present, no override files) for the C2
witness. -/
def c2ExFS : QuestionFS := ⟨some [], fun _ _ => none⟩

theorem c2_deep_merge_correct_witness :
    lookupA (deep_merge c2ExBase c2ExOver) "a"
      = mergeLookupSpec (lookupA c2ExBase "a") (lookupA c2ExOver "a")
    ∧ (∀ xs, lookupA c2ExOver "a" = some (YVal.ylist xs) →
        lookupA (deep_merge c2ExBase c2ExOver) "a" = some (YVal.ylist xs))
    ∧ deep_merge [("a", YVal.ymap [("x", YVal.yint 1), ("y", YVal.yint 2)])]
        [("a", YVal.ymap [("y", YVal.yint 9)])]
      = [("a", YVal.ymap [("x", YVal.yint 1), ("y", YVal.yint 9)])]
    ∧ generate_k8s_cluster_config c2ExFS (some "cka/001")
        = c2ExFS.base_template.getD [] :=
  c2_deep_merge_correct c2ExBase c2ExOver "a" (by decide) c2ExFS "cka/001"
    (fun _ _ _ _ => rfl)

/-! ## Inventory generation (`_generate_inventory_ini`) -/

/-- `VMNode` of `models/schemas.py` (the fields the generator reads). -/
structure VMNode where
  name : String
  ip : String
  role : String

/-- `SSHConfig` of `models/schemas.py`. -/
structure SSHConfig where
  user : String
  port : Nat

/-- `VMClusterConfig` of `models/schemas.py` (the fields the generator
reads). -/
structure VMClusterConfig where
  nodes : List VMNode
  ssh_config : SSHConfig

/-- The `[all]`-group line for one node:
`name ansible_host=ip ip=ip`. -/
def hostLine (n : VMNode) : String :=
  n.name ++ (" ansible_host=" ++ n.ip ++ (" ip=" ++ n.ip))

/-- `KubesprayInventoryService._generate_inventory_ini`, as the list of
lines it accumulates before joining with a newline; `ts` stands for the
`datetime.utcnow().isoformat()` timestamp interpolated into the second
comment line. -/
def inventoryLines (ts : String) (vm_config : VMClusterConfig) : List String :=
  ["# Kubespray inventory file", "# Generated at: " ++ ts, "", "[all]"]
  ++ vm_config.nodes.map hostLine
  ++ ["", "[kube_control_plane]"]
  ++ (vm_config.nodes.filter (fun n => n.role == "master")).map VMNode.name
  ++ ["", "[etcd]"]
  ++ (vm_config.nodes.filter (fun n => n.role == "master")).map VMNode.name
  ++ ["", "[kube_node]"]
  ++ vm_config.nodes.map VMNode.name
  ++ ["", "[calico_rr]",
      "# 通常空的，除非題組特別需要 Route Reflector",
      "", "[k8s_cluster:children]",
      "kube_control_plane", "kube_node", "calico_rr"]

/-- The full generated `inventory.ini` text. -/
def generate_inventory_ini (ts : String) (vm_config : VMClusterConfig) : String :=
  String.intercalate "\n" (inventoryLines ts vm_config)

/-- A line that opens an INI section. -/
def lineIsHeader (l : String) : Bool := l.data.head? == some '['

/-- A comment line of the generated file. -/
def lineIsComment (l : String) : Bool := l.data.head? == some '#'

/-- The lines of the section opened by `header`: everything after the first
occurrence of the header line, up to the next section header. -/
def sectionOf (lines : List String) (header : String) : List String :=
  (((lines.dropWhile (fun l => !(l == header))).drop 1).takeWhile
    (fun l => !(lineIsHeader l)))

/-- The member lines of the section opened by `header`: its lines with
blank and comment lines removed, as an INI reader sees the group. -/
def membersOf (lines : List String) (header : String) : List String :=
  (sectionOf lines header).filter (fun l => !(l == "") && !(lineIsComment l))

/-- The host name named by an inventory line (its first
whitespace-delimited token). -/
def firstToken (l : String) : String :=
  String.mk (l.data.takeWhile (fun c => !(c = ' ')))

/-- Hygiene of a node name as an inventory host name: non-empty, not
opening a section, not a comment, and without spaces.  Any name that
violates this produces an inventory file that no INI reader can parse as
intended, so the group-membership claim is read under this hygiene. -/
def goodName (s : String) : Prop :=
  s.data ≠ [] ∧ s.data.head? ≠ some '[' ∧ s.data.head? ≠ some '#' ∧
    ' ' ∉ s.data

instance (s : String) : Decidable (goodName s) := by
  unfold goodName; infer_instance

theorem dropWhile_append_of_forall {α : Type} (p : α → Bool) (xs ys : List α)
    (h : ∀ x ∈ xs, p x = true) :
    (xs ++ ys).dropWhile p = ys.dropWhile p := by
  induction xs with
  | nil => rfl
  | cons a tl ih =>
    simp only [List.cons_append, List.dropWhile_cons, h a (by simp)]
    exact ih (fun x hx => h x (by simp [hx]))

theorem takeWhile_append_of_forall {α : Type} (p : α → Bool) (xs ys : List α)
    (h : ∀ x ∈ xs, p x = true) :
    (xs ++ ys).takeWhile p = xs ++ ys.takeWhile p := by
  induction xs with
  | nil => rfl
  | cons a tl ih =>
    simp only [List.cons_append, List.takeWhile_cons, h a (by simp)]
    rw [ih (fun x hx => h x (by simp [hx]))]
    simp

theorem takeWhile_eq_self_of_forall {α : Type} (p : α → Bool) (xs : List α)
    (h : ∀ x ∈ xs, p x = true) : xs.takeWhile p = xs := by
  have := takeWhile_append_of_forall p xs [] h
  simpa using this

theorem filter_eq_self_of_forall {α : Type} (p : α → Bool) (xs : List α)
    (h : ∀ x ∈ xs, p x = true) : xs.filter p = xs := by
  induction xs with
  | nil => rfl
  | cons a tl ih =>
    simp only [List.filter_cons, h a (by simp)]
    rw [ih (fun x hx => h x (by simp [hx]))]
    simp

theorem string_beq_false_of_head_ne (s t : String)
    (h : s.data.head? ≠ t.data.head?) : (s == t) = false := by
  cases h2 : s == t
  · rfl
  · exact absurd (congrArg (fun u => u.data.head?) (eq_of_beq h2)) h

theorem goodName_head (s : String) (h : goodName s) :
    ∃ c cs, s.data = c :: cs ∧ c ≠ '[' ∧ c ≠ '#' ∧ c ≠ ' ' := by
  obtain ⟨hne, hbr, hcm, hsp⟩ := h
  cases hd : s.data with
  | nil => exact absurd hd hne
  | cons c cs =>
    refine ⟨c, cs, rfl, ?_, ?_, ?_⟩
    · intro hc; exact hbr (by rw [hd, hc]; rfl)
    · intro hc; exact hcm (by rw [hd, hc]; rfl)
    · intro hc; exact hsp (by rw [hd, hc]; exact List.mem_cons_self _ _)

theorem hostLine_head (n : VMNode) (h : goodName n.name) :
    (hostLine n).data.head? = n.name.data.head? := by
  obtain ⟨c, cs, hd, _, _, _⟩ := goodName_head n.name h
  unfold hostLine
  rw [String.data_append, hd]
  rfl

theorem hostLine_not_header (n : VMNode) (h : goodName n.name) :
    lineIsHeader (hostLine n) = false := by
  obtain ⟨c, cs, hd, hbr, _, _⟩ := goodName_head n.name h
  unfold lineIsHeader
  rw [hostLine_head n h, hd]
  simp [hbr]

theorem hostLine_not_comment (n : VMNode) (h : goodName n.name) :
    lineIsComment (hostLine n) = false := by
  obtain ⟨c, cs, hd, _, hcm, _⟩ := goodName_head n.name h
  unfold lineIsComment
  rw [hostLine_head n h, hd]
  simp [hcm]

theorem hostLine_ne_blank (n : VMNode) (h : goodName n.name) :
    (hostLine n == "") = false := by
  apply string_beq_false_of_head_ne
  obtain ⟨c, cs, hd, _, _, _⟩ := goodName_head n.name h
  rw [hostLine_head n h, hd]
  simp

theorem hostLine_beq_header (n : VMNode) (h : goodName n.name)
    (hdr : String) (hh : hdr.data.head? = some '[') :
    (hostLine n == hdr) = false := by
  apply string_beq_false_of_head_ne
  obtain ⟨c, cs, hd, hbr, _, _⟩ := goodName_head n.name h
  rw [hostLine_head n h, hd, hh]
  simp [hbr]

theorem name_not_header (s : String) (h : goodName s) :
    lineIsHeader s = false := by
  obtain ⟨c, cs, hd, hbr, _, _⟩ := goodName_head s h
  unfold lineIsHeader
  rw [hd]
  simp [hbr]

theorem name_not_comment (s : String) (h : goodName s) :
    lineIsComment s = false := by
  obtain ⟨c, cs, hd, _, hcm, _⟩ := goodName_head s h
  unfold lineIsComment
  rw [hd]
  simp [hcm]

theorem name_ne_blank (s : String) (h : goodName s) : (s == "") = false := by
  apply string_beq_false_of_head_ne
  obtain ⟨c, cs, hd, _, _, _⟩ := goodName_head s h
  rw [hd]
  simp

theorem name_beq_header (s : String) (h : goodName s)
    (hdr : String) (hh : hdr.data.head? = some '[') : (s == hdr) = false := by
  apply string_beq_false_of_head_ne
  obtain ⟨c, cs, hd, hbr, _, _⟩ := goodName_head s h
  rw [hd, hh]
  simp [hbr]

theorem membersOf_located (pre body rest : List String) (header nexth : String)
    (hpre : ∀ l ∈ pre, (l == header) = false)
    (hbody : ∀ l ∈ body, lineIsHeader l = false)
    (hnext : lineIsHeader nexth = true) :
    membersOf (pre ++ header :: (body ++ nexth :: rest)) header
      = body.filter (fun l => !(l == "") && !(lineIsComment l)) := by
  unfold membersOf sectionOf
  rw [dropWhile_append_of_forall _ pre _ (fun x hx => by simp [hpre x hx])]
  rw [List.dropWhile_cons]
  simp only [beq_self_eq_true, Bool.not_true, Bool.false_eq_true, if_false,
    List.drop_succ_cons, List.drop_zero]
  rw [takeWhile_append_of_forall _ body _ (fun x hx => by simp [hbody x hx])]
  rw [List.takeWhile_cons]
  simp [hnext]

theorem membersOf_located_last (pre body : List String) (header : String)
    (hpre : ∀ l ∈ pre, (l == header) = false)
    (hbody : ∀ l ∈ body, lineIsHeader l = false) :
    membersOf (pre ++ header :: body) header
      = body.filter (fun l => !(l == "") && !(lineIsComment l)) := by
  unfold membersOf sectionOf
  rw [dropWhile_append_of_forall _ pre _ (fun x hx => by simp [hpre x hx])]
  rw [List.dropWhile_cons]
  simp only [beq_self_eq_true, Bool.not_true, Bool.false_eq_true, if_false,
    List.drop_succ_cons, List.drop_zero]
  rw [takeWhile_eq_self_of_forall _ body (fun x hx => by simp [hbody x hx])]

theorem append_head_left (s t : String) (c : Char) (h : s.data.head? = some c) :
    (s ++ t).data.head? = some c := by
  rw [String.data_append]
  cases hd : s.data with
  | nil => rw [hd] at h; cases h
  | cons a tl =>
    rw [hd] at h
    simp only [List.head?_cons, Option.some.injEq] at h
    simp [h]

theorem mem_hosts_beq_header {nodes : List VMNode} {l hdr : String}
    (h : ∀ n ∈ nodes, goodName n.name) (hh : hdr.data.head? = some '[')
    (hl : l ∈ nodes.map hostLine) : (l == hdr) = false := by
  obtain ⟨n, hn, rfl⟩ := List.mem_map.1 hl
  exact hostLine_beq_header n (h n hn) hdr hh

theorem mem_names_beq_header {nodes : List VMNode} {l hdr : String}
    (h : ∀ n ∈ nodes, goodName n.name) (hh : hdr.data.head? = some '[')
    (hl : l ∈ nodes.map VMNode.name) : (l == hdr) = false := by
  obtain ⟨n, hn, rfl⟩ := List.mem_map.1 hl
  exact name_beq_header n.name (h n hn) hdr hh

theorem good_of_filter {nodes : List VMNode} (p : VMNode → Bool)
    (h : ∀ n ∈ nodes, goodName n.name) :
    ∀ n ∈ nodes.filter p, goodName n.name := by
  intro n hn
  exact h n (List.mem_of_mem_filter hn)

theorem filter_hosts (nodes : List VMNode) (h : ∀ n ∈ nodes, goodName n.name) :
    (nodes.map hostLine).filter (fun l => !(l == "") && !(lineIsComment l))
      = nodes.map hostLine := by
  apply filter_eq_self_of_forall
  intro l hl
  obtain ⟨n, hn, rfl⟩ := List.mem_map.1 hl
  simp [hostLine_ne_blank n (h n hn), hostLine_not_comment n (h n hn)]

theorem filter_names (nodes : List VMNode) (h : ∀ n ∈ nodes, goodName n.name) :
    (nodes.map VMNode.name).filter (fun l => !(l == "") && !(lineIsComment l))
      = nodes.map VMNode.name := by
  apply filter_eq_self_of_forall
  intro l hl
  obtain ⟨n, hn, rfl⟩ := List.mem_map.1 hl
  simp [name_ne_blank n.name (h n hn), name_not_comment n.name (h n hn)]

theorem hosts_not_header {nodes : List VMNode} (h : ∀ n ∈ nodes, goodName n.name) :
    ∀ l ∈ nodes.map hostLine, lineIsHeader l = false := by
  intro l hl
  obtain ⟨n, hn, rfl⟩ := List.mem_map.1 hl
  exact hostLine_not_header n (h n hn)

theorem names_not_header {nodes : List VMNode} (h : ∀ n ∈ nodes, goodName n.name) :
    ∀ l ∈ nodes.map VMNode.name, lineIsHeader l = false := by
  intro l hl
  obtain ⟨n, hn, rfl⟩ := List.mem_map.1 hl
  exact name_not_header n.name (h n hn)

/-- The `[all]` group lists every node (one host line per node, in input
order). -/
theorem membersOf_all (ts : String) (cfg : VMClusterConfig)
    (h : ∀ n ∈ cfg.nodes, goodName n.name) :
    membersOf (inventoryLines ts cfg) "[all]" = cfg.nodes.map hostLine := by
  have hshape : inventoryLines ts cfg
      = ["# Kubespray inventory file", "# Generated at: " ++ ts, ""]
        ++ "[all]" :: ((cfg.nodes.map hostLine ++ [""])
          ++ "[kube_control_plane]"
            :: ((cfg.nodes.filter (fun n => n.role == "master")).map VMNode.name
              ++ ["", "[etcd]"]
              ++ (cfg.nodes.filter (fun n => n.role == "master")).map VMNode.name
              ++ ["", "[kube_node]"]
              ++ cfg.nodes.map VMNode.name
              ++ ["", "[calico_rr]",
                  "# 通常空的，除非題組特別需要 Route Reflector",
                  "", "[k8s_cluster:children]",
                  "kube_control_plane", "kube_node", "calico_rr"])) := by
    simp [inventoryLines]
  rw [hshape, membersOf_located]
  · rw [List.filter_append, filter_hosts cfg.nodes h]
    simp
  · intro l hl
    simp only [List.mem_cons, List.mem_singleton, List.not_mem_nil] at hl
    rcases hl with rfl | hl
    · decide
    rcases hl with rfl | hl
    · exact string_beq_false_of_head_ne _ _ (by
        rw [append_head_left "# Generated at: " ts '#' (by decide)]; decide)
    rcases hl with rfl | hl
    · decide
    · cases hl
  · intro l hl
    rcases List.mem_append.1 hl with hl | hl
    · exact hosts_not_header h l hl
    · simp only [List.mem_singleton] at hl
      subst hl
      decide
  · decide

/-- The control-plane group lists exactly the master nodes. -/
theorem membersOf_control_plane (ts : String) (cfg : VMClusterConfig)
    (h : ∀ n ∈ cfg.nodes, goodName n.name) :
    membersOf (inventoryLines ts cfg) "[kube_control_plane]"
      = (cfg.nodes.filter (fun n => n.role == "master")).map VMNode.name := by
  have hshape : inventoryLines ts cfg
      = (["# Kubespray inventory file", "# Generated at: " ++ ts, "", "[all]"]
          ++ cfg.nodes.map hostLine ++ [""])
        ++ "[kube_control_plane]"
          :: (((cfg.nodes.filter (fun n => n.role == "master")).map VMNode.name
              ++ [""])
            ++ "[etcd]"
              :: ((cfg.nodes.filter (fun n => n.role == "master")).map VMNode.name
                ++ ["", "[kube_node]"]
                ++ cfg.nodes.map VMNode.name
                ++ ["", "[calico_rr]",
                    "# 通常空的，除非題組特別需要 Route Reflector",
                    "", "[k8s_cluster:children]",
                    "kube_control_plane", "kube_node", "calico_rr"])) := by
    simp [inventoryLines]
  rw [hshape, membersOf_located]
  · rw [List.filter_append,
      filter_names _ (good_of_filter (fun n => n.role == "master") h)]
    simp
  · intro l hl
    rcases List.mem_append.1 hl with hl | hl
    rcases List.mem_append.1 hl with hl | hl
    · simp only [List.mem_cons, List.mem_singleton, List.not_mem_nil] at hl
      rcases hl with rfl | hl
      · decide
      rcases hl with rfl | hl
      · exact string_beq_false_of_head_ne _ _ (by
          rw [append_head_left "# Generated at: " ts '#' (by decide)]; decide)
      rcases hl with rfl | hl
      · decide
      rcases hl with rfl | hl
      · decide
      · cases hl
    · exact mem_hosts_beq_header h (by decide) hl
    · simp only [List.mem_singleton] at hl
      subst hl
      decide
  · intro l hl
    rcases List.mem_append.1 hl with hl | hl
    · exact names_not_header (good_of_filter (fun n => n.role == "master") h) l hl
    · simp only [List.mem_singleton] at hl
      subst hl
      decide
  · decide

/-- The etcd group lists exactly the master nodes (same as control plane). -/
theorem membersOf_etcd (ts : String) (cfg : VMClusterConfig)
    (h : ∀ n ∈ cfg.nodes, goodName n.name) :
    membersOf (inventoryLines ts cfg) "[etcd]"
      = (cfg.nodes.filter (fun n => n.role == "master")).map VMNode.name := by
  have hshape : inventoryLines ts cfg
      = (["# Kubespray inventory file", "# Generated at: " ++ ts, "", "[all]"]
          ++ cfg.nodes.map hostLine ++ ["", "[kube_control_plane]"]
          ++ (cfg.nodes.filter (fun n => n.role == "master")).map VMNode.name
          ++ [""])
        ++ "[etcd]"
          :: (((cfg.nodes.filter (fun n => n.role == "master")).map VMNode.name
              ++ [""])
            ++ "[kube_node]"
              :: (cfg.nodes.map VMNode.name
                ++ ["", "[calico_rr]",
                    "# 通常空的，除非題組特別需要 Route Reflector",
                    "", "[k8s_cluster:children]",
                    "kube_control_plane", "kube_node", "calico_rr"])) := by
    simp [inventoryLines]
  rw [hshape, membersOf_located]
  · rw [List.filter_append,
      filter_names _ (good_of_filter (fun n => n.role == "master") h)]
    simp
  · intro l hl
    rcases List.mem_append.1 hl with hl | hl
    rcases List.mem_append.1 hl with hl | hl
    rcases List.mem_append.1 hl with hl | hl
    rcases List.mem_append.1 hl with hl | hl
    · simp only [List.mem_cons, List.mem_singleton, List.not_mem_nil] at hl
      rcases hl with rfl | hl
      · decide
      rcases hl with rfl | hl
      · exact string_beq_false_of_head_ne _ _ (by
          rw [append_head_left "# Generated at: " ts '#' (by decide)]; decide)
      rcases hl with rfl | hl
      · decide
      rcases hl with rfl | hl
      · decide
      · cases hl
    · exact mem_hosts_beq_header h (by decide) hl
    · simp only [List.mem_cons, List.mem_singleton, List.not_mem_nil] at hl
      rcases hl with rfl | hl
      · decide
      rcases hl with rfl | hl
      · decide
      · cases hl
    · exact mem_names_beq_header
        (good_of_filter (fun n => n.role == "master") h) (by decide) hl
    · simp only [List.mem_singleton] at hl
      subst hl
      decide
  · intro l hl
    rcases List.mem_append.1 hl with hl | hl
    · exact names_not_header (good_of_filter (fun n => n.role == "master") h) l hl
    · simp only [List.mem_singleton] at hl
      subst hl
      decide
  · decide

/-- The worker group lists every node. -/
theorem membersOf_kube_node (ts : String) (cfg : VMClusterConfig)
    (h : ∀ n ∈ cfg.nodes, goodName n.name) :
    membersOf (inventoryLines ts cfg) "[kube_node]"
      = cfg.nodes.map VMNode.name := by
  have hshape : inventoryLines ts cfg
      = (["# Kubespray inventory file", "# Generated at: " ++ ts, "", "[all]"]
          ++ cfg.nodes.map hostLine ++ ["", "[kube_control_plane]"]
          ++ (cfg.nodes.filter (fun n => n.role == "master")).map VMNode.name
          ++ ["", "[etcd]"]
          ++ (cfg.nodes.filter (fun n => n.role == "master")).map VMNode.name
          ++ [""])
        ++ "[kube_node]"
          :: ((cfg.nodes.map VMNode.name ++ [""])
            ++ "[calico_rr]"
              :: ["# 通常空的，除非題組特別需要 Route Reflector",
                  "", "[k8s_cluster:children]",
                  "kube_control_plane", "kube_node", "calico_rr"]) := by
    simp [inventoryLines]
  rw [hshape, membersOf_located]
  · rw [List.filter_append, filter_names _ h]
    simp
  · intro l hl
    rcases List.mem_append.1 hl with hl | hl
    rcases List.mem_append.1 hl with hl | hl
    rcases List.mem_append.1 hl with hl | hl
    rcases List.mem_append.1 hl with hl | hl
    rcases List.mem_append.1 hl with hl | hl
    rcases List.mem_append.1 hl with hl | hl
    · simp only [List.mem_cons, List.mem_singleton, List.not_mem_nil] at hl
      rcases hl with rfl | hl
      · decide
      rcases hl with rfl | hl
      · exact string_beq_false_of_head_ne _ _ (by
          rw [append_head_left "# Generated at: " ts '#' (by decide)]; decide)
      rcases hl with rfl | hl
      · decide
      rcases hl with rfl | hl
      · decide
      · cases hl
    · exact mem_hosts_beq_header h (by decide) hl
    · simp only [List.mem_cons, List.mem_singleton, List.not_mem_nil] at hl
      rcases hl with rfl | hl
      · decide
      rcases hl with rfl | hl
      · decide
      · cases hl
    · exact mem_names_beq_header
        (good_of_filter (fun n => n.role == "master") h) (by decide) hl
    · simp only [List.mem_cons, List.mem_singleton, List.not_mem_nil] at hl
      rcases hl with rfl | hl
      · decide
      rcases hl with rfl | hl
      · decide
      · cases hl
    · exact mem_names_beq_header
        (good_of_filter (fun n => n.role == "master") h) (by decide) hl
    · simp only [List.mem_singleton] at hl
      subst hl
      decide
  · intro l hl
    rcases List.mem_append.1 hl with hl | hl
    · exact names_not_header h l hl
    · simp only [List.mem_singleton] at hl
      subst hl
      decide
  · decide

/-- The auxiliary `[calico_rr]` group is empty (a comment and a blank line
only). -/
theorem membersOf_calico_rr (ts : String) (cfg : VMClusterConfig)
    (h : ∀ n ∈ cfg.nodes, goodName n.name) :
    membersOf (inventoryLines ts cfg) "[calico_rr]" = [] := by
  have hshape : inventoryLines ts cfg
      = (["# Kubespray inventory file", "# Generated at: " ++ ts, "", "[all]"]
          ++ cfg.nodes.map hostLine ++ ["", "[kube_control_plane]"]
          ++ (cfg.nodes.filter (fun n => n.role == "master")).map VMNode.name
          ++ ["", "[etcd]"]
          ++ (cfg.nodes.filter (fun n => n.role == "master")).map VMNode.name
          ++ ["", "[kube_node]"]
          ++ cfg.nodes.map VMNode.name
          ++ [""])
        ++ "[calico_rr]"
          :: (["# 通常空的，除非題組特別需要 Route Reflector", ""]
            ++ "[k8s_cluster:children]"
              :: ["kube_control_plane", "kube_node", "calico_rr"]) := by
    simp [inventoryLines]
  rw [hshape, membersOf_located]
  · decide
  · intro l hl
    rcases List.mem_append.1 hl with hl | hl
    rcases List.mem_append.1 hl with hl | hl
    rcases List.mem_append.1 hl with hl | hl
    rcases List.mem_append.1 hl with hl | hl
    rcases List.mem_append.1 hl with hl | hl
    rcases List.mem_append.1 hl with hl | hl
    rcases List.mem_append.1 hl with hl | hl
    rcases List.mem_append.1 hl with hl | hl
    · simp only [List.mem_cons, List.mem_singleton, List.not_mem_nil] at hl
      rcases hl with rfl | hl
      · decide
      rcases hl with rfl | hl
      · exact string_beq_false_of_head_ne _ _ (by
          rw [append_head_left "# Generated at: " ts '#' (by decide)]; decide)
      rcases hl with rfl | hl
      · decide
      rcases hl with rfl | hl
      · decide
      · cases hl
    · exact mem_hosts_beq_header h (by decide) hl
    · simp only [List.mem_cons, List.mem_singleton, List.not_mem_nil] at hl
      rcases hl with rfl | hl
      · decide
      rcases hl with rfl | hl
      · decide
      · cases hl
    · exact mem_names_beq_header
        (good_of_filter (fun n => n.role == "master") h) (by decide) hl
    · simp only [List.mem_cons, List.mem_singleton, List.not_mem_nil] at hl
      rcases hl with rfl | hl
      · decide
      rcases hl with rfl | hl
      · decide
      · cases hl
    · exact mem_names_beq_header
        (good_of_filter (fun n => n.role == "master") h) (by decide) hl
    · simp only [List.mem_cons, List.mem_singleton, List.not_mem_nil] at hl
      rcases hl with rfl | hl
      · decide
      rcases hl with rfl | hl
      · decide
      · cases hl
    · exact mem_names_beq_header h (by decide) hl
    · simp only [List.mem_singleton] at hl
      subst hl
      decide
  · intro l hl
    simp only [List.mem_cons, List.mem_singleton, List.not_mem_nil] at hl
    rcases hl with rfl | hl
    · decide
    rcases hl with rfl | hl
    · decide
    · cases hl
  · decide

/-- The parent group's children are the control-plane group, the worker
group and the auxiliary group. -/
theorem membersOf_children (ts : String) (cfg : VMClusterConfig)
    (h : ∀ n ∈ cfg.nodes, goodName n.name) :
    membersOf (inventoryLines ts cfg) "[k8s_cluster:children]"
      = ["kube_control_plane", "kube_node", "calico_rr"] := by
  have hshape : inventoryLines ts cfg
      = (["# Kubespray inventory file", "# Generated at: " ++ ts, "", "[all]"]
          ++ cfg.nodes.map hostLine ++ ["", "[kube_control_plane]"]
          ++ (cfg.nodes.filter (fun n => n.role == "master")).map VMNode.name
          ++ ["", "[etcd]"]
          ++ (cfg.nodes.filter (fun n => n.role == "master")).map VMNode.name
          ++ ["", "[kube_node]"]
          ++ cfg.nodes.map VMNode.name
          ++ ["", "[calico_rr]",
              "# 通常空的，除非題組特別需要 Route Reflector", ""])
        ++ "[k8s_cluster:children]"
          :: ["kube_control_plane", "kube_node", "calico_rr"] := by
    simp [inventoryLines]
  rw [hshape, membersOf_located_last]
  · decide
  · intro l hl
    rcases List.mem_append.1 hl with hl | hl
    rcases List.mem_append.1 hl with hl | hl
    rcases List.mem_append.1 hl with hl | hl
    rcases List.mem_append.1 hl with hl | hl
    rcases List.mem_append.1 hl with hl | hl
    rcases List.mem_append.1 hl with hl | hl
    rcases List.mem_append.1 hl with hl | hl
    rcases List.mem_append.1 hl with hl | hl
    · simp only [List.mem_cons, List.mem_singleton, List.not_mem_nil] at hl
      rcases hl with rfl | hl
      · decide
      rcases hl with rfl | hl
      · exact string_beq_false_of_head_ne _ _ (by
          rw [append_head_left "# Generated at: " ts '#' (by decide)]; decide)
      rcases hl with rfl | hl
      · decide
      rcases hl with rfl | hl
      · decide
      · cases hl
    · exact mem_hosts_beq_header h (by decide) hl
    · simp only [List.mem_cons, List.mem_singleton, List.not_mem_nil] at hl
      rcases hl with rfl | hl
      · decide
      rcases hl with rfl | hl
      · decide
      · cases hl
    · exact mem_names_beq_header
        (good_of_filter (fun n => n.role == "master") h) (by decide) hl
    · simp only [List.mem_cons, List.mem_singleton, List.not_mem_nil] at hl
      rcases hl with rfl | hl
      · decide
      rcases hl with rfl | hl
      · decide
      · cases hl
    · exact mem_names_beq_header
        (good_of_filter (fun n => n.role == "master") h) (by decide) hl
    · simp only [List.mem_cons, List.mem_singleton, List.not_mem_nil] at hl
      rcases hl with rfl | hl
      · decide
      rcases hl with rfl | hl
      · decide
      · cases hl
    · exact mem_names_beq_header h (by decide) hl
    · simp only [List.mem_cons, List.mem_singleton, List.not_mem_nil] at hl
      rcases hl with rfl | hl
      · decide
      rcases hl with rfl | hl
      · decide
      rcases hl with rfl | hl
      · decide
      rcases hl with rfl | hl
      · decide
      · cases hl
  · intro l hl
    simp only [List.mem_cons, List.mem_singleton, List.not_mem_nil] at hl
    rcases hl with rfl | hl
    · decide
    rcases hl with rfl | hl
    · decide
    rcases hl with rfl | hl
    · decide
    · cases hl

theorem firstToken_hostLine (n : VMNode) (h : goodName n.name) :
    firstToken (hostLine n) = n.name := by
  obtain ⟨hne, hbr, hcm, hsp⟩ := h
  unfold firstToken hostLine
  rw [String.data_append]
  rw [takeWhile_append_of_forall _ _ _ (fun c hc => by
    simp only [Bool.not_eq_true', decide_eq_false_iff_not]
    intro he
    exact hsp (he ▸ hc))]
  have hsp2 : (" ansible_host=" ++ n.ip ++ (" ip=" ++ n.ip)).data
      = ' ' :: ("ansible_host=".data ++ n.ip.data ++ (" ip=" ++ n.ip).data) := by
    rw [String.data_append, String.data_append]
    rfl
  rw [hsp2]
  simp [List.takeWhile_cons]

/-- The one-master-one-worker example topology from the spec's end-to-end
property. -/
def mwCfg : VMClusterConfig :=
  ⟨[⟨"master1", "10.0.0.1", "master"⟩, ⟨"worker1", "10.0.0.2", "worker"⟩],
    ⟨"root", 22⟩⟩

/-- The inventory lines generated for the example topology at a fixed
timestamp. -/
def mwLines : List String := inventoryLines "2025-01-01T00:00:00" mwCfg

/-- C3: Inventory group membership.  For every topology whose node names
are hygienic (non-empty, no space, not starting a section or comment), the
generated inventory text places every node in the all-hosts group
(`[all]`, read back through its first token) and in the worker group
(`[kube_node]`); the control-plane group (`[kube_control_plane]`) holds
exactly the nodes with role master; the etcd group equals the control-plane
group; the auxiliary `[calico_rr]` group is empty; and the parent group
`[k8s_cluster:children]` declares exactly the control-plane, worker and
auxiliary groups as children.  For the concrete one-master-one-worker
topology, the master is the only member of control-plane and etcd while
both nodes are members of the worker and all-hosts groups. -/
theorem c3_inventory_group_membership (ts : String) (cfg : VMClusterConfig)
    (h : ∀ n ∈ cfg.nodes, goodName n.name) :
    ((membersOf (inventoryLines ts cfg) "[all]").map firstToken
        = cfg.nodes.map VMNode.name)
    ∧ membersOf (inventoryLines ts cfg) "[kube_control_plane]"
        = (cfg.nodes.filter (fun n => n.role == "master")).map VMNode.name
    ∧ membersOf (inventoryLines ts cfg) "[etcd]"
        = membersOf (inventoryLines ts cfg) "[kube_control_plane]"
    ∧ membersOf (inventoryLines ts cfg) "[kube_node]"
        = cfg.nodes.map VMNode.name
    ∧ membersOf (inventoryLines ts cfg) "[calico_rr]" = []
    ∧ membersOf (inventoryLines ts cfg) "[k8s_cluster:children]"
        = ["kube_control_plane", "kube_node", "calico_rr"]
    ∧ (membersOf mwLines "[kube_control_plane]" = ["master1"]
        ∧ membersOf mwLines "[etcd]" = ["master1"]
        ∧ membersOf mwLines "[kube_node]" = ["master1", "worker1"]
        ∧ (membersOf mwLines "[all]").map firstToken
            = ["master1", "worker1"]) := by
  refine ⟨?_, membersOf_control_plane ts cfg h,
    ?_, membersOf_kube_node ts cfg h, membersOf_calico_rr ts cfg h,
    membersOf_children ts cfg h, ?_, ?_, ?_, ?_⟩
  · rw [membersOf_all ts cfg h, List.map_map]
    exact List.map_congr_left (fun n hn => firstToken_hostLine n (h n hn))
  · rw [membersOf_etcd ts cfg h, membersOf_control_plane ts cfg h]
  · decide
  · decide
  · decide
  · decide

theorem c3_inventory_group_membership_witness :
    ((membersOf (inventoryLines "2025-01-01T00:00:00" mwCfg) "[all]").map
        firstToken = mwCfg.nodes.map VMNode.name)
    ∧ membersOf (inventoryLines "2025-01-01T00:00:00" mwCfg)
        "[kube_control_plane]"
        = (mwCfg.nodes.filter (fun n => n.role == "master")).map VMNode.name
    ∧ membersOf (inventoryLines "2025-01-01T00:00:00" mwCfg) "[etcd]"
        = membersOf (inventoryLines "2025-01-01T00:00:00" mwCfg)
            "[kube_control_plane]"
    ∧ membersOf (inventoryLines "2025-01-01T00:00:00" mwCfg) "[kube_node]"
        = mwCfg.nodes.map VMNode.name
    ∧ membersOf (inventoryLines "2025-01-01T00:00:00" mwCfg) "[calico_rr]" = []
    ∧ membersOf (inventoryLines "2025-01-01T00:00:00" mwCfg)
        "[k8s_cluster:children]"
        = ["kube_control_plane", "kube_node", "calico_rr"]
    ∧ (membersOf mwLines "[kube_control_plane]" = ["master1"]
        ∧ membersOf mwLines "[etcd]" = ["master1"]
        ∧ membersOf mwLines "[kube_node]" = ["master1", "worker1"]
        ∧ (membersOf mwLines "[all]").map firstToken
            = ["master1", "worker1"]) :=
  c3_inventory_group_membership "2025-01-01T00:00:00" mwCfg (by decide)

/-! ## Status store (`_set_deployment_status`, `_update_deployment_status`) -/

/-- The `status` field of a `DeploymentStatus` record. -/
inductive DStatus where
  | pending
  | started
  | running
  | completed
  | failed
deriving DecidableEq, Repr

/-- The deployment-status record kept under `session:id:deploy:status`:
status, playbook, optional exit code, whether `completed_at` has been
filled in, and the remaining time-to-live stamped by `setex`. -/
structure StatusRecord where
  status : DStatus
  playbook : String
  exit_code : Option Int
  has_completed_at : Bool
  ttl : Nat
deriving DecidableEq, Repr

/-- The Redis keyspace holding one optional status record per session. -/
def Store : Type := String → Option StatusRecord

/-- `_set_deployment_status`: `setex(key, 3600, data)` — overwrite the
record unconditionally and stamp the fixed one-hour TTL. -/
def set_deployment_status (st : Store) (sid : String) (r : StatusRecord) :
    Store :=
  fun x => if x = sid then some { r with ttl := 3600 } else st x

/-- `_update_deployment_status`: read the current record; when it is absent
(TTL-expired or never written) do nothing; otherwise set the new status,
overwrite `exit_code` only when one is given, fill `completed_at` when the
new status is terminal, and write back through `_set_deployment_status`. -/
def update_deployment_status (st : Store) (sid : String) (status : DStatus)
    (exit_code : Option Int) : Store :=
  match st sid with
  | none => st
  | some r =>
    set_deployment_status st sid
      { r with
        status := status,
        exit_code := match exit_code with
          | some c => some c
          | none => r.exit_code,
        has_completed_at :=
          if status = DStatus.completed ∨ status = DStatus.failed then true
          else r.has_completed_at }

/-- C10: Status updates are conditional on a live record.  When the
session's record is absent from the store (TTL-expired mid-run),
`_update_deployment_status` is a silent no-op — in particular a terminal
completed/failed status and its exit code are never recorded.  When the
record is live, the update writes the new status and, like every
successful write, stamps the full fixed TTL of 3600 seconds; a direct
`_set_deployment_status` write stamps the same TTL. -/
theorem c10_update_requires_live_record (st1 st2 : Store) (sid : String)
    (status : DStatus) (c : Option Int) (r0 r1 : StatusRecord)
    (habsent : st1 sid = none) (hlive : st2 sid = some r0) :
    update_deployment_status st1 sid status c = st1
    ∧ (∃ r2, (update_deployment_status st2 sid status c) sid = some r2
        ∧ r2.ttl = 3600
        ∧ r2.status = status
        ∧ (∀ cc, c = some cc → r2.exit_code = some cc)
        ∧ ((status = DStatus.completed ∨ status = DStatus.failed) →
            r2.has_completed_at = true))
    ∧ (set_deployment_status st1 sid r1) sid = some { r1 with ttl := 3600 } := by
  refine ⟨?_, ?_, ?_⟩
  · unfold update_deployment_status
    rw [habsent]
  · unfold update_deployment_status
    rw [hlive]
    refine ⟨{ r0 with
        status := status,
        exit_code := match c with
          | some cc => some cc
          | none => r0.exit_code,
        has_completed_at :=
          if status = DStatus.completed ∨ status = DStatus.failed then true
          else r0.has_completed_at,
        ttl := 3600 }, ?_, rfl, rfl, ?_, ?_⟩
    · simp [set_deployment_status]
    · intro cc hcc
      subst hcc
      rfl
    · intro hterm
      simp [if_pos hterm]
  · unfold set_deployment_status
    rw [if_pos rfl]

/-- Concrete record for the C10 witness. -/
def c10Rec : StatusRecord :=
  ⟨DStatus.started, "cluster.yml", none, false, 3600⟩

/-- Concrete one-record store for the C10 witness. -/
def c10Store : Store := fun x => if x = "s1" then some c10Rec else none

theorem c10_update_requires_live_record_witness :
    update_deployment_status (fun _ => none) "s1" DStatus.completed (some 0)
      = (fun _ => none)
    ∧ (∃ r2, (update_deployment_status c10Store "s1" DStatus.completed
          (some 0)) "s1" = some r2
        ∧ r2.ttl = 3600
        ∧ r2.status = DStatus.completed
        ∧ (∀ cc, (some 0 : Option Int) = some cc → r2.exit_code = some cc)
        ∧ ((DStatus.completed = DStatus.completed
              ∨ DStatus.completed = DStatus.failed) →
            r2.has_completed_at = true))
    ∧ (set_deployment_status (fun _ => none) "s1" c10Rec) "s1"
        = some { c10Rec with ttl := 3600 } :=
  c10_update_requires_live_record (fun _ => none) c10Store "s1"
    DStatus.completed (some 0) c10Rec c10Rec rfl rfl

/-! ## Process supervisor (`_execute_deployment`), linear trace view -/

/-- Python `str.rstrip()` over the whitespace characters it strips. -/
def pyWhitespace (c : Char) : Bool :=
  c = ' ' ∨ c = '\t' ∨ c = '\n' ∨ c = '\r' ∨ c = '\x0b' ∨ c = '\x0c'

/-- Python `str.rstrip()`: drop trailing whitespace. -/
def pyRstrip (s : String) : String :=
  String.mk ((s.data.reverse.dropWhile pyWhitespace).reverse)

/-- The log lines `_stream_ansible_output` publishes for raw subprocess
lines: each line is rstripped and lines that become empty are skipped. -/
def nonEmptyLines (lines : List String) : List String :=
  (lines.map pyRstrip).filter (fun l => !(l == ""))

/-- Payload of the terminal status event published by the supervisor. -/
structure StatusEventData where
  status : DStatus
  exit_code : Int
  has_completed_at : Bool
deriving DecidableEq, Repr

/-- An event published on the session's Redis pub/sub channel. -/
inductive Event where
  | log (message : String)
  | statusEv (d : StatusEventData)
  | errorEv
deriving DecidableEq, Repr

/-- One awaited effect of `_execute_deployment`, in program order. -/
inductive SupAction where
  | updStatus (sid : String) (status : DStatus) (exit_code : Option Int)
  | spawn
  | publish (sid : String) (e : Event)
  | clearSlot
deriving DecidableEq, Repr

/-- The environment of one supervisor run: whether
`asyncio.create_subprocess_exec` succeeds, the raw lines successfully read
from the child's combined stdout before EOF (or before a read exception),
whether the read loop ended through a caught exception rather than EOF, and
the child's exit code. -/
structure RunSpec where
  spawnOk : Bool
  lines : List String
  readFail : Bool
  exitCode : Int
deriving Repr

/-- `_execute_deployment` as its sequence of effects.  The running-status
update comes first (the source performs it before spawning); when the spawn
succeeds the supervisor publishes one log event per non-empty rstripped
line, then writes the terminal status (completed iff exit code is zero,
with the exit code), publishes the terminal status event (which carries a
`completed_at` timestamp) and finally clears the admission slot.  When the
spawn raises, the `except` block writes failed with exit code -1 and
publishes an error event, and the `finally` block clears the slot.  A read
exception is caught inside `_stream_ansible_output` and only breaks the
read loop (truncating `lines`); it contributes no action of its own. -/
def execute_deployment_trace (sid : String) (r : RunSpec) : List SupAction :=
  SupAction.updStatus sid DStatus.running none ::
    (if r.spawnOk then
      SupAction.spawn ::
        ((nonEmptyLines r.lines).map
            (fun l => SupAction.publish sid (Event.log l))
          ++ [SupAction.updStatus sid
                (if r.exitCode = 0 then DStatus.completed else DStatus.failed)
                (some r.exitCode),
              SupAction.publish sid (Event.statusEv
                ⟨(if r.exitCode = 0 then DStatus.completed else DStatus.failed),
                  r.exitCode, true⟩),
              SupAction.clearSlot])
    else
      [SupAction.updStatus sid DStatus.failed (some (-1)),
       SupAction.publish sid Event.errorEv,
       SupAction.clearSlot])

/-- Effect of one supervisor action on the status store (publishes and the
spawn touch only the bus / the process table). -/
def applyAction (st : Store) : SupAction → Store
  | SupAction.updStatus sid status c => update_deployment_status st sid status c
  | _ => st

/-- Effect of a whole trace on the status store. -/
def applyTrace (st : Store) (acts : List SupAction) : Store :=
  acts.foldl applyAction st

/-- The events published on the bus by a trace, in publish order. -/
def publishedEvents (acts : List SupAction) : List Event :=
  acts.filterMap (fun a => match a with
    | SupAction.publish _ e => some e
    | _ => none)

/-- The messages of the log events of an event sequence, in order. -/
def logMessages (evs : List Event) : List String :=
  evs.filterMap (fun e => match e with
    | Event.log m => some m
    | _ => none)

theorem foldl_publish_id (st : Store) (sid : String) (ls : List String) :
    List.foldl applyAction st
      (ls.map (fun l => SupAction.publish sid (Event.log l))) = st := by
  induction ls generalizing st with
  | nil => rfl
  | cons a tl ih => simpa [applyAction] using ih st

theorem applyTrace_execute_ok (sid : String) (r : RunSpec) (st : Store)
    (hspawn : r.spawnOk = true) :
    applyTrace st (execute_deployment_trace sid r)
      = update_deployment_status
          (update_deployment_status st sid DStatus.running none) sid
          (if r.exitCode = 0 then DStatus.completed else DStatus.failed)
          (some r.exitCode) := by
  unfold execute_deployment_trace applyTrace
  rw [if_pos hspawn]
  rw [List.foldl_cons, List.foldl_cons, List.foldl_append, foldl_publish_id]
  rfl

/-- C6: Terminal outcome mapping.  For every run whose spawn succeeded and
whose child exits with code c, provided the session's status record is
still live, the final store holds status completed when c is zero and
failed otherwise, with exit_code c and completed_at filled in; and a
terminal status event carrying that status, the exit code and a
completed_at timestamp is published on the session's channel. -/
theorem c6_terminal_outcome_mapping (sid : String) (r : RunSpec) (st : Store)
    (r0 : StatusRecord) (hspawn : r.spawnOk = true) (hlive : st sid = some r0) :
    (applyTrace st (execute_deployment_trace sid r)) sid
      = some { r0 with
          status := if r.exitCode = 0 then DStatus.completed else DStatus.failed,
          exit_code := some r.exitCode,
          has_completed_at := true,
          ttl := 3600 }
    ∧ SupAction.publish sid (Event.statusEv
        ⟨(if r.exitCode = 0 then DStatus.completed else DStatus.failed),
          r.exitCode, true⟩) ∈ execute_deployment_trace sid r := by
  constructor
  · rw [applyTrace_execute_ok sid r st hspawn]
    by_cases hc : r.exitCode = 0 <;>
      simp [hc, update_deployment_status, set_deployment_status, hlive]
  · unfold execute_deployment_trace
    rw [if_pos hspawn]
    by_cases hc : r.exitCode = 0 <;> simp [hc]

/-- Concrete status record for the supervisor-trace witnesses. -/
def supRec : StatusRecord := ⟨DStatus.started, "cluster.yml", none, false, 3600⟩

/-- Concrete one-record store for the supervisor-trace witnesses. -/
def supStore : Store := fun x => if x = "s1" then some supRec else none

/-- Concrete successful run for the C6 witness. -/
def c6Run : RunSpec := ⟨true, ["TASK [ping]", "ok"], false, 0⟩

theorem c6_terminal_outcome_mapping_witness :
    (applyTrace supStore (execute_deployment_trace "s1" c6Run)) "s1"
      = some { supRec with
          status := if c6Run.exitCode = 0 then DStatus.completed
            else DStatus.failed,
          exit_code := some c6Run.exitCode,
          has_completed_at := true,
          ttl := 3600 }
    ∧ SupAction.publish "s1" (Event.statusEv
        ⟨(if c6Run.exitCode = 0 then DStatus.completed else DStatus.failed),
          c6Run.exitCode, true⟩) ∈ execute_deployment_trace "s1" c6Run :=
  c6_terminal_outcome_mapping "s1" c6Run supStore supRec rfl rfl

/-- Concrete run for the C5 counterexample: the spawn will succeed, but the
interesting state is the one reached after the first awaited effect. -/
def c5Run : RunSpec := ⟨true, [], false, 0⟩

/-- C5 counterexample: after only the first awaited effect of
`_execute_deployment` — a strict prefix of the run during which no spawn
has happened — the session's record already reads running: the source
writes status running before `asyncio.create_subprocess_exec`, so the
record is running before the spawn succeeds, refuting the claim that it
never is. -/
theorem c5_counterexample :
    (execute_deployment_trace "s1" c5Run).take 1
        = [SupAction.updStatus "s1" DStatus.running none]
    ∧ SupAction.spawn ∉ (execute_deployment_trace "s1" c5Run).take 1
    ∧ (applyTrace supStore ((execute_deployment_trace "s1" c5Run).take 1)) "s1"
        = some { supRec with status := DStatus.running, ttl := 3600 } := by
  refine ⟨rfl, by decide, by decide⟩

/-- C5 amended: the running-status write is the first effect of every
supervisor run and the spawn, when it succeeds, comes strictly after it;
when the spawn fails no spawn effect ever occurs (while the running write
still did). -/
theorem c5_running_written_before_spawn (sid : String) (r : RunSpec) :
    (execute_deployment_trace sid r).head?
        = some (SupAction.updStatus sid DStatus.running none)
    ∧ (r.spawnOk = true →
        (execute_deployment_trace sid r).get? 1 = some SupAction.spawn)
    ∧ (r.spawnOk = false →
        SupAction.spawn ∉ execute_deployment_trace sid r) := by
  refine ⟨rfl, ?_, ?_⟩
  · intro hs
    unfold execute_deployment_trace
    rw [if_pos hs]
    rfl
  · intro hs
    unfold execute_deployment_trace
    rw [if_neg (by simp [hs])]
    simp

theorem c5_running_written_before_spawn_witness :
    (execute_deployment_trace "s1" c5Run).head?
        = some (SupAction.updStatus "s1" DStatus.running none)
    ∧ (execute_deployment_trace "s1" c5Run).get? 1 = some SupAction.spawn :=
  ⟨(c5_running_written_before_spawn "s1" c5Run).1,
    (c5_running_written_before_spawn "s1" c5Run).2.1 rfl⟩

/-- Concrete run for the C7 counterexample: spawn succeeds, a read
exception interrupts the streaming loop, the child then exits 0. -/
def c7Run : RunSpec := ⟨true, ["partial output"], true, 0⟩

/-- C7 counterexample: a run in which an exception is raised while reading
the child's output (`readFail`).  `_stream_ansible_output` catches it and
merely breaks its loop, so the run continues to `process.wait()`: with exit
code 0 the final status is completed with exit_code 0 — the status is not
forced to failed with exit_code -1 and no error event is published,
refuting the claim for read exceptions. -/
theorem c7_counterexample :
    c7Run.readFail = true
    ∧ (applyTrace supStore (execute_deployment_trace "s1" c7Run)) "s1"
        = some { supRec with
            status := DStatus.completed,
            exit_code := some 0,
            has_completed_at := true,
            ttl := 3600 }
    ∧ SupAction.updStatus "s1" DStatus.failed (some (-1))
        ∉ execute_deployment_trace "s1" c7Run
    ∧ SupAction.publish "s1" Event.errorEv
        ∉ execute_deployment_trace "s1" c7Run := by
  refine ⟨rfl, by decide, by decide, by decide⟩

/-- C7 amended: every exception that reaches `_execute_deployment`'s own
handler — in this model a spawn failure, since read errors are caught
inside the streaming loop and only truncate it — forces status failed with
exit_code -1 and publishes an error event; and on every exit path (success,
tool failure, or exception) the final effect of the run is the
unconditional clearing of the admission slot. -/
theorem c7_exception_handling_and_release (sid : String) (r : RunSpec) :
    (r.spawnOk = false →
      SupAction.updStatus sid DStatus.failed (some (-1))
          ∈ execute_deployment_trace sid r
        ∧ SupAction.publish sid Event.errorEv ∈ execute_deployment_trace sid r)
    ∧ ∃ pre, execute_deployment_trace sid r = pre ++ [SupAction.clearSlot]
        ∧ SupAction.clearSlot ∉ pre := by
  constructor
  · intro hs
    unfold execute_deployment_trace
    rw [if_neg (by simp [hs])]
    simp
  · by_cases hs : r.spawnOk = true
    · refine ⟨SupAction.updStatus sid DStatus.running none ::
        SupAction.spawn ::
          ((nonEmptyLines r.lines).map
              (fun l => SupAction.publish sid (Event.log l))
            ++ [SupAction.updStatus sid
                  (if r.exitCode = 0 then DStatus.completed else DStatus.failed)
                  (some r.exitCode),
                SupAction.publish sid (Event.statusEv
                  ⟨(if r.exitCode = 0 then DStatus.completed
                      else DStatus.failed),
                    r.exitCode, true⟩)]), ?_, ?_⟩
      · unfold execute_deployment_trace
        rw [if_pos hs]
        simp
      · simp
    · refine ⟨[SupAction.updStatus sid DStatus.running none,
        SupAction.updStatus sid DStatus.failed (some (-1)),
        SupAction.publish sid Event.errorEv], ?_, ?_⟩
      · unfold execute_deployment_trace
        rw [if_neg hs]
        rfl
      · simp

/-- Concrete spawn-failure run for the C7 witness. -/
def c7FailRun : RunSpec := ⟨false, [], false, 0⟩

theorem c7_exception_handling_and_release_witness :
    (SupAction.updStatus "s1" DStatus.failed (some (-1))
        ∈ execute_deployment_trace "s1" c7FailRun
      ∧ SupAction.publish "s1" Event.errorEv
          ∈ execute_deployment_trace "s1" c7FailRun)
    ∧ ∃ pre, execute_deployment_trace "s1" c7FailRun
          = pre ++ [SupAction.clearSlot]
        ∧ SupAction.clearSlot ∉ pre :=
  ⟨(c7_exception_handling_and_release "s1" c7FailRun).1 rfl,
    (c7_exception_handling_and_release "s1" c7FailRun).2⟩

/-- C9: Per-subscriber log ordering.  For every run whose spawn succeeded,
the supervisor publishes as log events exactly the non-empty (rstripped)
lines of the child's output, in production order, with nothing added and
nothing dropped besides blank lines — so a subscriber attached before the
first publish, receiving the channel's events in publish order, receives
exactly those lines in that order with no duplicates. -/
theorem publishedEvents_cons_upd (sid : String) (st : DStatus) (c : Option Int)
    (acts : List SupAction) :
    publishedEvents (SupAction.updStatus sid st c :: acts)
      = publishedEvents acts := rfl

theorem publishedEvents_cons_spawn (acts : List SupAction) :
    publishedEvents (SupAction.spawn :: acts) = publishedEvents acts := rfl

theorem publishedEvents_cons_clear (acts : List SupAction) :
    publishedEvents (SupAction.clearSlot :: acts) = publishedEvents acts := rfl

theorem publishedEvents_cons_publish (sid : String) (e : Event)
    (acts : List SupAction) :
    publishedEvents (SupAction.publish sid e :: acts)
      = e :: publishedEvents acts := rfl

theorem publishedEvents_append (xs ys : List SupAction) :
    publishedEvents (xs ++ ys) = publishedEvents xs ++ publishedEvents ys :=
  List.filterMap_append xs ys _

theorem logMessages_cons_log (m : String) (evs : List Event) :
    logMessages (Event.log m :: evs) = m :: logMessages evs := rfl

theorem logMessages_cons_statusEv (d : StatusEventData) (evs : List Event) :
    logMessages (Event.statusEv d :: evs) = logMessages evs := rfl

theorem logMessages_cons_errorEv (evs : List Event) :
    logMessages (Event.errorEv :: evs) = logMessages evs := rfl

theorem logMessages_append (xs ys : List Event) :
    logMessages (xs ++ ys) = logMessages xs ++ logMessages ys :=
  List.filterMap_append xs ys _

theorem publish_log_round_trip (sid : String) (ls : List String) :
    logMessages (publishedEvents
      (ls.map (fun l => SupAction.publish sid (Event.log l)))) = ls := by
  induction ls with
  | nil => rfl
  | cons a tl ih =>
    rw [List.map_cons, publishedEvents_cons_publish, logMessages_cons_log, ih]

theorem c9_log_ordering (sid : String) (r : RunSpec)
    (hspawn : r.spawnOk = true) :
    logMessages (publishedEvents (execute_deployment_trace sid r))
      = nonEmptyLines r.lines := by
  unfold execute_deployment_trace
  rw [if_pos hspawn]
  rw [publishedEvents_cons_upd, publishedEvents_cons_spawn,
    publishedEvents_append, publishedEvents_cons_upd,
    publishedEvents_cons_publish, publishedEvents_cons_clear]
  rw [logMessages_append, publish_log_round_trip, logMessages_cons_statusEv]
  simp [logMessages, publishedEvents]

/-- Concrete run for the C9 witness: a blank line and trailing whitespace
exercise the rstrip-and-skip behaviour. -/
def c9Run : RunSpec := ⟨true, ["TASK [ping]", "", "ok  ", "done"], false, 0⟩

theorem c9_log_ordering_witness :
    logMessages (publishedEvents (execute_deployment_trace "s1" c9Run))
      = nonEmptyLines c9Run.lines :=
  c9_log_ordering "s1" c9Run rfl

/-! ## SSE transport adapter (`stream_deployment_logs`) -/

/-- One pub/sub payload as the SSE generator sees it.  `malformed` is a
payload whose JSON decoding or whose `data` key access raises
(`json.JSONDecodeError` / `KeyError`) — the errors the generator catches.
`ok` carries the payload's optional `event_type` field (absent defaults to
`log`) and the optional `status` field of its `data` object. -/
inductive BusPayload where
  | malformed
  | ok (eventType : Option String) (dataStatus : Option String)
deriving DecidableEq, Repr

/-- One message delivered by `pubsub.listen()`: the subscription
confirmation, or a channel message with a payload. -/
inductive BusMsg where
  | subConfirm
  | message (p : BusPayload)
deriving DecidableEq, Repr

/-- One server-sent-event frame: the synthetic connection acknowledgement,
or a typed data frame forwarding a bus event (represented by its event type
and the `status` field of its forwarded data). -/
inductive SSEFrame where
  | connected
  | typed (eventType : String) (dataStatus : Option String)
deriving DecidableEq, Repr

/-- The stream-ending test of the generator: the effective event type is
`status` and the data's status is `completed` or `failed`. -/
def terminalPayload : BusPayload → Bool
  | BusPayload.malformed => false
  | BusPayload.ok et ds =>
    (et.getD "log" == "status")
      && (ds == some "completed" || ds == some "failed")

/-- The message loop of the SSE `event_generator`: skip subscription
confirmations, drop malformed payloads and continue, forward every
well-formed payload as a typed frame, and stop right after forwarding a
terminal status frame. -/
def sseLoop : List BusMsg → List SSEFrame
  | [] => []
  | BusMsg.subConfirm :: rest => sseLoop rest
  | BusMsg.message BusPayload.malformed :: rest => sseLoop rest
  | BusMsg.message (BusPayload.ok et ds) :: rest =>
    if (et.getD "log" == "status")
        && (ds == some "completed" || ds == some "failed")
    then [SSEFrame.typed (et.getD "log") ds]
    else SSEFrame.typed (et.getD "log") ds :: sseLoop rest

/-- `stream_deployment_logs`'s generator over a finite message sequence
(the sequence ending stands for client disconnect): the synthetic connected
frame followed by the loop's frames, paired with the fact that the
`finally` block unsubscribed on whatever path ended the stream. -/
def stream_deployment_logs (msgs : List BusMsg) : List SSEFrame × Bool :=
  (SSEFrame.connected :: sseLoop msgs, true)

/-- The frame a single bus message is forwarded as, if any. -/
def frameOf : BusMsg → Option SSEFrame
  | BusMsg.message (BusPayload.ok et ds) =>
    some (SSEFrame.typed (et.getD "log") ds)
  | _ => none

/-- Whether a bus message ends the stream. -/
def isTerminalMsg : BusMsg → Bool
  | BusMsg.message p => terminalPayload p
  | _ => false

/-- The prefix of the message sequence up to and including the first
terminal status message (the whole sequence when there is none). -/
def upToTerminal : List BusMsg → List BusMsg
  | [] => []
  | m :: rest => if isTerminalMsg m then [m] else m :: upToTerminal rest

theorem sseLoop_eq (msgs : List BusMsg) :
    sseLoop msgs = (upToTerminal msgs).filterMap frameOf := by
  induction msgs with
  | nil => rfl
  | cons m rest ih =>
    cases m with
    | subConfirm =>
      rw [show sseLoop (BusMsg.subConfirm :: rest) = sseLoop rest from rfl]
      rw [ih]
      rfl
    | message p =>
      cases p with
      | malformed =>
        rw [show sseLoop (BusMsg.message BusPayload.malformed :: rest)
            = sseLoop rest from rfl]
        rw [ih]
        rfl
      | ok et ds =>
        by_cases ht : ((et.getD "log" == "status")
            && (ds == some "completed" || ds == some "failed")) = true
        · unfold sseLoop upToTerminal
          rw [if_pos ht, if_pos (by simpa [isTerminalMsg, terminalPayload]
            using ht)]
          rfl
        · unfold sseLoop upToTerminal
          rw [if_neg ht, if_neg (by simpa [isTerminalMsg, terminalPayload]
            using ht)]
          rw [ih]
          rfl

/-- C8: SSE adapter contract.  For every message sequence, the stream is
a synthetic connected frame first, followed by one typed frame per
well-formed bus event, in order, up to and including the first terminal
status event, at which point the stream closes; the unsubscribe of the
`finally` block runs on every exit path (stream ended by a terminal event
or by the sequence ending, i.e. disconnect).  Dropping a single malformed
payload anywhere leaves the rest of the stream unchanged — the stream
continues uninterrupted. -/
theorem c8_sse_adapter_contract (msgs pre post : List BusMsg) :
    stream_deployment_logs msgs
      = (SSEFrame.connected :: (upToTerminal msgs).filterMap frameOf, true)
    ∧ sseLoop (pre ++ BusMsg.message BusPayload.malformed :: post)
        = sseLoop (pre ++ post) := by
  constructor
  · unfold stream_deployment_logs
    rw [sseLoop_eq]
  · induction pre with
    | nil => rfl
    | cons m tl ih =>
      cases m with
      | subConfirm =>
        simpa [show ∀ l, sseLoop (BusMsg.subConfirm :: l) = sseLoop l
          from fun _ => rfl] using ih
      | message p =>
        cases p with
        | malformed =>
          simpa [show ∀ l, sseLoop (BusMsg.message BusPayload.malformed :: l)
              = sseLoop l from fun _ => rfl] using ih
        | ok et ds =>
          rw [List.cons_append, List.cons_append]
          by_cases ht : ((et.getD "log" == "status")
              && (ds == some "completed" || ds == some "failed")) = true
          · simp only [sseLoop]
            rw [if_pos ht, if_pos ht]
          · simp only [sseLoop]
            rw [if_neg ht, if_neg ht, ih]

/-! ## Admission controller and interleaving semantics (`start_deployment`,
`_execute_deployment` under the cooperative scheduler) -/

/-- The `DeploymentStatus` record `start_deployment` writes before spawning
the background task. -/
def startedRecord (pb : String) : StatusRecord :=
  { status := DStatus.started, playbook := pb, exit_code := none,
    has_completed_at := false, ttl := 3600 }

/-- Program counter of a `_execute_deployment` supervisor task: the next
awaited effect.  `updRunning` = about to write status running; `spawning` =
about to call `create_subprocess_exec`; `streaming` = reading/publishing
output lines (log publishes do not change slot or store and are elided);
`waiting` = awaiting the exit code; `updTerm c` / `pubTerm c` = writing the
terminal status / publishing the terminal event for exit code c; `updFail`
/ `pubErr` = the `except` block's failed write / error publish; `clearing`
= the `finally` block about to clear the slot. -/
inductive SupPC where
  | updRunning
  | spawning
  | streaming
  | waiting
  | updTerm (c : Int)
  | pubTerm (c : Int)
  | updFail
  | pubErr
  | clearing
deriving DecidableEq, Repr

/-- A live cooperative task: the tail of a `start_deployment` handler that
still has to write the started record (`dWrite`), the tail that still has
to `create_task` the supervisor (`dSpawn`), or a supervisor (`sup`). -/
inductive Task where
  | dWrite (sid pb : String)
  | dSpawn (sid pb : String)
  | sup (sid pb : String) (pc : SupPC)
deriving DecidableEq, Repr

/-- The session a task belongs to. -/
def Task.sid : Task → String
  | Task.dWrite s _ => s
  | Task.dSpawn s _ => s
  | Task.sup s _ _ => s

/-- The whole mutable state of the service: the module-global
`current_deployment_session` slot, the Redis status keyspace, and the live
async tasks. -/
structure SysState where
  slot : Option String
  store : Store
  tasks : List Task

/-- One atomic step of the cooperatively scheduled system: each constructor
is a code segment between `await` points of `start_deployment` or
`_execute_deployment`, plus `expire` for a TTL eviction by Redis.  A deploy
request is admitted only when the slot is free and its inventory exists
(`deploy` — the slot check and assignment are synchronous, hence one
step); a denied or 404 request changes no state and therefore needs no
step. -/
inductive Step (inv : String → Bool) : SysState → SysState → Prop
  | deploy (st : SysState) (sid pb : String) :
      inv sid = true →
      st.slot = none →
      Step inv st { st with
        slot := some sid,
        tasks := Task.dWrite sid pb :: st.tasks }
  | writeStarted (st : SysState) (sid pb : String) (pre post : List Task) :
      st.tasks = pre ++ Task.dWrite sid pb :: post →
      Step inv st { st with
        store := set_deployment_status st.store sid (startedRecord pb),
        tasks := pre ++ Task.dSpawn sid pb :: post }
  | spawnSupTask (st : SysState) (sid pb : String) (pre post : List Task) :
      st.tasks = pre ++ Task.dSpawn sid pb :: post →
      Step inv st { st with
        tasks := pre ++ Task.sup sid pb SupPC.updRunning :: post }
  | supUpdRunning (st : SysState) (sid pb : String) (pre post : List Task) :
      st.tasks = pre ++ Task.sup sid pb SupPC.updRunning :: post →
      Step inv st { st with
        store := update_deployment_status st.store sid DStatus.running none,
        tasks := pre ++ Task.sup sid pb SupPC.spawning :: post }
  | supSpawnOk (st : SysState) (sid pb : String) (pre post : List Task) :
      st.tasks = pre ++ Task.sup sid pb SupPC.spawning :: post →
      Step inv st { st with
        tasks := pre ++ Task.sup sid pb SupPC.streaming :: post }
  | supSpawnFail (st : SysState) (sid pb : String) (pre post : List Task) :
      st.tasks = pre ++ Task.sup sid pb SupPC.spawning :: post →
      Step inv st { st with
        tasks := pre ++ Task.sup sid pb SupPC.updFail :: post }
  | supStreamEnd (st : SysState) (sid pb : String) (pre post : List Task) :
      st.tasks = pre ++ Task.sup sid pb SupPC.streaming :: post →
      Step inv st { st with
        tasks := pre ++ Task.sup sid pb SupPC.waiting :: post }
  | supExit (st : SysState) (sid pb : String) (c : Int) (pre post : List Task) :
      st.tasks = pre ++ Task.sup sid pb SupPC.waiting :: post →
      Step inv st { st with
        tasks := pre ++ Task.sup sid pb (SupPC.updTerm c) :: post }
  | supUpdTerm (st : SysState) (sid pb : String) (c : Int)
      (pre post : List Task) :
      st.tasks = pre ++ Task.sup sid pb (SupPC.updTerm c) :: post →
      Step inv st { st with
        store := update_deployment_status st.store sid
          (if c = 0 then DStatus.completed else DStatus.failed) (some c),
        tasks := pre ++ Task.sup sid pb (SupPC.pubTerm c) :: post }
  | supPubTerm (st : SysState) (sid pb : String) (c : Int)
      (pre post : List Task) :
      st.tasks = pre ++ Task.sup sid pb (SupPC.pubTerm c) :: post →
      Step inv st { st with
        tasks := pre ++ Task.sup sid pb SupPC.clearing :: post }
  | supUpdFail (st : SysState) (sid pb : String) (pre post : List Task) :
      st.tasks = pre ++ Task.sup sid pb SupPC.updFail :: post →
      Step inv st { st with
        store := update_deployment_status st.store sid DStatus.failed
          (some (-1)),
        tasks := pre ++ Task.sup sid pb SupPC.pubErr :: post }
  | supPubErr (st : SysState) (sid pb : String) (pre post : List Task) :
      st.tasks = pre ++ Task.sup sid pb SupPC.pubErr :: post →
      Step inv st { st with
        tasks := pre ++ Task.sup sid pb SupPC.clearing :: post }
  | supClear (st : SysState) (sid pb : String) (pre post : List Task) :
      st.tasks = pre ++ Task.sup sid pb SupPC.clearing :: post →
      Step inv st { st with slot := none, tasks := pre ++ post }
  | expire (st : SysState) (sid : String) (r : StatusRecord) :
      st.store sid = some r →
      Step inv st { st with
        store := fun x => if x = sid then none else st.store x }

/-- The state at service start: no slot holder, empty keyspace, no tasks. -/
def initState : SysState :=
  { slot := none, store := fun _ => none, tasks := [] }

/-- Reachability by any interleaving of deploy requests, supervisor steps
and TTL evictions. -/
def Reachable (inv : String → Bool) (st : SysState) : Prop :=
  Relation.ReflTransGen (Step inv) initState st

/-- A record counting as an active deployment (spec: status in started,
running). -/
def recActive (r : StatusRecord) : Prop :=
  r.status = DStatus.started ∨ r.status = DStatus.running

/-- The session's record is terminal or gone. -/
def termOrAbsent (store : Store) (sid : String) : Prop :=
  ∀ r, store sid = some r →
    r.status = DStatus.completed ∨ r.status = DStatus.failed

/-- Supervisor phases at which the terminal (or failed) store write has
already happened. -/
def Task.late : Task → Prop
  | Task.sup _ _ (SupPC.pubTerm _) => True
  | Task.sup _ _ SupPC.pubErr => True
  | Task.sup _ _ SupPC.clearing => True
  | _ => False

/-- The inductive invariant: active records belong to the slot holder;
every live task belongs to the slot holder; a supervisor past its terminal
write has a terminal-or-absent record; at most one task is live. -/
def Inv (st : SysState) : Prop :=
  (∀ sid r, st.store sid = some r → recActive r → st.slot = some sid)
  ∧ (∀ t ∈ st.tasks, st.slot = some t.sid)
  ∧ (∀ t ∈ st.tasks, t.late → termOrAbsent st.store t.sid)
  ∧ st.tasks.length ≤ 1

theorem split_singleton {α : Type} (pre post : List α) (t : α)
    (h : (pre ++ t :: post).length ≤ 1) : pre = [] ∧ post = [] := by
  cases pre with
  | nil =>
    cases post with
    | nil => exact ⟨rfl, rfl⟩
    | cons b tl => simp at h
  | cons a tl => simp at h

theorem inv_init : Inv initState := by
  refine ⟨?_, ?_, ?_, ?_⟩
  · intro sid r hr
    cases hr
  · intro t ht
    cases ht
  · intro t ht
    cases ht
  · simp [initState]

theorem slot_of_single_task (st : SysState) (t : Task)
    (h2 : ∀ u ∈ st.tasks, st.slot = some u.sid)
    (hT : st.tasks = [t]) : st.slot = some t.sid := by
  exact h2 t (by rw [hT]; simp)

theorem inv_step (inv : String → Bool) (st st' : SysState)
    (hinv : Inv st) (hstep : Step inv st st') : Inv st' := by
  obtain ⟨h1, h2, h3, h4⟩ := hinv
  cases hstep with
  | deploy sid pb hi hs =>
    have hT : st.tasks = [] := by
      cases hE : st.tasks with
      | nil => rfl
      | cons a l =>
        have hx := h2 a (by rw [hE]; exact List.mem_cons_self a l)
        rw [hs] at hx
        cases hx
    refine ⟨?_, ?_, ?_, ?_⟩
    · intro s0 r hr ha
      have hx := h1 s0 r hr ha
      rw [hs] at hx
      cases hx
    · intro t ht
      simp only [hT, List.mem_cons, List.not_mem_nil, or_false] at ht
      subst ht
      rfl
    · intro t ht hl
      simp only [hT, List.mem_cons, List.not_mem_nil, or_false] at ht
      subst ht
      cases hl
    · simp [hT]
  | writeStarted sid pb pre post hT =>
    obtain ⟨hpre, hpost⟩ := split_singleton pre post _ (by rw [← hT]; exact h4)
    subst hpre; subst hpost
    have hslot : st.slot = some sid :=
      slot_of_single_task st (Task.dWrite sid pb) h2 (by simpa using hT)
    refine ⟨?_, ?_, ?_, ?_⟩
    · intro s0 r hr ha
      by_cases he : s0 = sid
      · subst he
        exact hslot
      · have hx : st.store s0 = some r := by
          simpa [set_deployment_status, he] using hr
        exact h1 s0 r hx ha
    · intro t ht
      simp only [List.nil_append, List.mem_cons, List.not_mem_nil,
        or_false] at ht
      subst ht
      exact hslot
    · intro t ht hl
      simp only [List.nil_append, List.mem_cons, List.not_mem_nil,
        or_false] at ht
      subst ht
      cases hl
    · simp
  | spawnSupTask sid pb pre post hT =>
    obtain ⟨hpre, hpost⟩ := split_singleton pre post _ (by rw [← hT]; exact h4)
    subst hpre; subst hpost
    have hslot : st.slot = some sid :=
      slot_of_single_task st (Task.dSpawn sid pb) h2 (by simpa using hT)
    refine ⟨fun s0 r hr ha => h1 s0 r hr ha, ?_, ?_, by simp⟩
    · intro t ht
      simp only [List.nil_append, List.mem_cons, List.not_mem_nil,
        or_false] at ht
      subst ht
      exact hslot
    · intro t ht hl
      simp only [List.nil_append, List.mem_cons, List.not_mem_nil,
        or_false] at ht
      subst ht
      cases hl
  | supUpdRunning sid pb pre post hT =>
    obtain ⟨hpre, hpost⟩ := split_singleton pre post _ (by rw [← hT]; exact h4)
    subst hpre; subst hpost
    have hslot : st.slot = some sid :=
      slot_of_single_task st (Task.sup sid pb SupPC.updRunning) h2
        (by simpa using hT)
    refine ⟨?_, ?_, ?_, by simp⟩
    · intro s0 r hr ha
      unfold update_deployment_status at hr
      cases hE : st.store sid with
      | none =>
        rw [hE] at hr
        exact h1 s0 r hr ha
      | some r0 =>
        rw [hE] at hr
        by_cases he : s0 = sid
        · subst he
          exact hslot
        · have hx : st.store s0 = some r := by
            simpa [set_deployment_status, he] using hr
          exact h1 s0 r hx ha
    · intro t ht
      simp only [List.nil_append, List.mem_cons, List.not_mem_nil,
        or_false] at ht
      subst ht
      exact hslot
    · intro t ht hl
      simp only [List.nil_append, List.mem_cons, List.not_mem_nil,
        or_false] at ht
      subst ht
      cases hl
  | supSpawnOk sid pb pre post hT =>
    obtain ⟨hpre, hpost⟩ := split_singleton pre post _ (by rw [← hT]; exact h4)
    subst hpre; subst hpost
    have hslot : st.slot = some sid :=
      slot_of_single_task st (Task.sup sid pb SupPC.spawning) h2
        (by simpa using hT)
    refine ⟨fun s0 r hr ha => h1 s0 r hr ha, ?_, ?_, by simp⟩
    · intro t ht
      simp only [List.nil_append, List.mem_cons, List.not_mem_nil,
        or_false] at ht
      subst ht
      exact hslot
    · intro t ht hl
      simp only [List.nil_append, List.mem_cons, List.not_mem_nil,
        or_false] at ht
      subst ht
      cases hl
  | supSpawnFail sid pb pre post hT =>
    obtain ⟨hpre, hpost⟩ := split_singleton pre post _ (by rw [← hT]; exact h4)
    subst hpre; subst hpost
    have hslot : st.slot = some sid :=
      slot_of_single_task st (Task.sup sid pb SupPC.spawning) h2
        (by simpa using hT)
    refine ⟨fun s0 r hr ha => h1 s0 r hr ha, ?_, ?_, by simp⟩
    · intro t ht
      simp only [List.nil_append, List.mem_cons, List.not_mem_nil,
        or_false] at ht
      subst ht
      exact hslot
    · intro t ht hl
      simp only [List.nil_append, List.mem_cons, List.not_mem_nil,
        or_false] at ht
      subst ht
      cases hl
  | supStreamEnd sid pb pre post hT =>
    obtain ⟨hpre, hpost⟩ := split_singleton pre post _ (by rw [← hT]; exact h4)
    subst hpre; subst hpost
    have hslot : st.slot = some sid :=
      slot_of_single_task st (Task.sup sid pb SupPC.streaming) h2
        (by simpa using hT)
    refine ⟨fun s0 r hr ha => h1 s0 r hr ha, ?_, ?_, by simp⟩
    · intro t ht
      simp only [List.nil_append, List.mem_cons, List.not_mem_nil,
        or_false] at ht
      subst ht
      exact hslot
    · intro t ht hl
      simp only [List.nil_append, List.mem_cons, List.not_mem_nil,
        or_false] at ht
      subst ht
      cases hl
  | supExit sid pb c pre post hT =>
    obtain ⟨hpre, hpost⟩ := split_singleton pre post _ (by rw [← hT]; exact h4)
    subst hpre; subst hpost
    have hslot : st.slot = some sid :=
      slot_of_single_task st (Task.sup sid pb SupPC.waiting) h2
        (by simpa using hT)
    refine ⟨fun s0 r hr ha => h1 s0 r hr ha, ?_, ?_, by simp⟩
    · intro t ht
      simp only [List.nil_append, List.mem_cons, List.not_mem_nil,
        or_false] at ht
      subst ht
      exact hslot
    · intro t ht hl
      simp only [List.nil_append, List.mem_cons, List.not_mem_nil,
        or_false] at ht
      subst ht
      cases hl
  | supUpdTerm sid pb c pre post hT =>
    obtain ⟨hpre, hpost⟩ := split_singleton pre post _ (by rw [← hT]; exact h4)
    subst hpre; subst hpost
    have hslot : st.slot = some sid :=
      slot_of_single_task st (Task.sup sid pb (SupPC.updTerm c)) h2
        (by simpa using hT)
    refine ⟨?_, ?_, ?_, by simp⟩
    · intro s0 r hr ha
      unfold update_deployment_status at hr
      cases hE : st.store sid with
      | none =>
        rw [hE] at hr
        exact h1 s0 r hr ha
      | some r0 =>
        rw [hE] at hr
        by_cases he : s0 = sid
        · subst he
          simp only [set_deployment_status, if_pos rfl, if_true,
            Option.some.injEq] at hr
          rcases ha with ha | ha <;>
            · rw [← hr] at ha
              by_cases hc : c = 0 <;> simp [hc] at ha
        · have hx : st.store s0 = some r := by
            simpa [set_deployment_status, he] using hr
          exact h1 s0 r hx ha
    · intro t ht
      simp only [List.nil_append, List.mem_cons, List.not_mem_nil,
        or_false] at ht
      subst ht
      exact hslot
    · intro t ht hl
      simp only [List.nil_append, List.mem_cons, List.not_mem_nil,
        or_false] at ht
      subst ht
      intro r hr
      unfold update_deployment_status at hr
      cases hE : st.store sid with
      | none =>
        rw [hE] at hr
        have hr2 : st.store sid = some r := hr
        rw [hE] at hr2
        cases hr2
      | some r0 =>
        rw [hE] at hr
        simp only [set_deployment_status, Task.sid, if_pos rfl, if_true,
          Option.some.injEq] at hr
        rw [← hr]
        by_cases hc : c = 0 <;> simp [hc]
  | supPubTerm sid pb c pre post hT =>
    obtain ⟨hpre, hpost⟩ := split_singleton pre post _ (by rw [← hT]; exact h4)
    subst hpre; subst hpost
    have hslot : st.slot = some sid :=
      slot_of_single_task st (Task.sup sid pb (SupPC.pubTerm c)) h2
        (by simpa using hT)
    refine ⟨fun s0 r hr ha => h1 s0 r hr ha, ?_, ?_, by simp⟩
    · intro t ht
      simp only [List.nil_append, List.mem_cons, List.not_mem_nil,
        or_false] at ht
      subst ht
      exact hslot
    · intro t ht hl
      simp only [List.nil_append, List.mem_cons, List.not_mem_nil,
        or_false] at ht
      subst ht
      exact h3 (Task.sup sid pb (SupPC.pubTerm c)) (by rw [hT]; simp) trivial
  | supUpdFail sid pb pre post hT =>
    obtain ⟨hpre, hpost⟩ := split_singleton pre post _ (by rw [← hT]; exact h4)
    subst hpre; subst hpost
    have hslot : st.slot = some sid :=
      slot_of_single_task st (Task.sup sid pb SupPC.updFail) h2
        (by simpa using hT)
    refine ⟨?_, ?_, ?_, by simp⟩
    · intro s0 r hr ha
      unfold update_deployment_status at hr
      cases hE : st.store sid with
      | none =>
        rw [hE] at hr
        exact h1 s0 r hr ha
      | some r0 =>
        rw [hE] at hr
        by_cases he : s0 = sid
        · subst he
          simp only [set_deployment_status, if_pos rfl, if_true,
            Option.some.injEq] at hr
          rcases ha with ha | ha <;>
            · rw [← hr] at ha
              simp at ha
        · have hx : st.store s0 = some r := by
            simpa [set_deployment_status, he] using hr
          exact h1 s0 r hx ha
    · intro t ht
      simp only [List.nil_append, List.mem_cons, List.not_mem_nil,
        or_false] at ht
      subst ht
      exact hslot
    · intro t ht hl
      simp only [List.nil_append, List.mem_cons, List.not_mem_nil,
        or_false] at ht
      subst ht
      intro r hr
      unfold update_deployment_status at hr
      cases hE : st.store sid with
      | none =>
        rw [hE] at hr
        have hr2 : st.store sid = some r := hr
        rw [hE] at hr2
        cases hr2
      | some r0 =>
        rw [hE] at hr
        simp only [set_deployment_status, Task.sid, if_pos rfl, if_true,
          Option.some.injEq] at hr
        rw [← hr]
        simp
  | supPubErr sid pb pre post hT =>
    obtain ⟨hpre, hpost⟩ := split_singleton pre post _ (by rw [← hT]; exact h4)
    subst hpre; subst hpost
    have hslot : st.slot = some sid :=
      slot_of_single_task st (Task.sup sid pb SupPC.pubErr) h2
        (by simpa using hT)
    refine ⟨fun s0 r hr ha => h1 s0 r hr ha, ?_, ?_, by simp⟩
    · intro t ht
      simp only [List.nil_append, List.mem_cons, List.not_mem_nil,
        or_false] at ht
      subst ht
      exact hslot
    · intro t ht hl
      simp only [List.nil_append, List.mem_cons, List.not_mem_nil,
        or_false] at ht
      subst ht
      exact h3 (Task.sup sid pb SupPC.pubErr) (by rw [hT]; simp) trivial
  | supClear sid pb pre post hT =>
    obtain ⟨hpre, hpost⟩ := split_singleton pre post _ (by rw [← hT]; exact h4)
    subst hpre; subst hpost
    have hslot : st.slot = some sid :=
      slot_of_single_task st (Task.sup sid pb SupPC.clearing) h2
        (by simpa using hT)
    have hterm : termOrAbsent st.store sid :=
      h3 (Task.sup sid pb SupPC.clearing) (by rw [hT]; simp) trivial
    refine ⟨?_, ?_, ?_, by simp⟩
    · intro s0 r hr ha
      have hx := h1 s0 r hr ha
      rw [hslot] at hx
      have hy : s0 = sid := by
        exact (Option.some.inj hx).symm
      subst hy
      rcases hterm r hr with hz | hz <;>
        rcases ha with ha | ha <;> rw [hz] at ha <;> cases ha
    · intro t ht
      cases ht
    · intro t ht
      cases ht
  | expire sid r hE =>
    refine ⟨?_, fun t ht => h2 t ht, ?_, h4⟩
    · intro s0 r0 hr ha
      by_cases he : s0 = sid
      · change (if s0 = sid then none else st.store s0) = some r0 at hr
        rw [if_pos he] at hr
        cases hr
      · change (if s0 = sid then none else st.store s0) = some r0 at hr
        rw [if_neg he] at hr
        exact h1 s0 r0 hr ha
    · intro t ht hl r0 hr
      by_cases he : t.sid = sid
      · change (if t.sid = sid then none else st.store t.sid) = some r0 at hr
        rw [if_pos he] at hr
        cases hr
      · change (if t.sid = sid then none else st.store t.sid) = some r0 at hr
        rw [if_neg he] at hr
        exact h3 t ht hl r0 hr

theorem inv_reachable (inv : String → Bool) (st : SysState)
    (h : Reachable inv st) : Inv st := by
  induction h with
  | refl => exact inv_init
  | tail hR hstep ih => exact inv_step inv _ _ ih hstep

/-- C1: Global run exclusivity.  In every state reachable by any
interleaving of deploy requests, supervisor steps and TTL evictions under
the cooperative scheduler: at most one session's record is in
started/running system-wide (first conjunct); any session whose record is
started/running is the current slot holder — so the slot was set before its
started record was written (second conjunct); and any step that clears the
slot leaves the departing holder's record terminal or absent — the slot is
cleared only after the supervisor reached a terminal outcome (third
conjunct). -/
theorem c1_global_run_exclusivity (inv : String → Bool) (st : SysState)
    (h : Reachable inv st) :
    (∀ s1 s2 r1 r2, st.store s1 = some r1 → recActive r1 →
        st.store s2 = some r2 → recActive r2 → s1 = s2)
    ∧ (∀ sid r, st.store sid = some r → recActive r → st.slot = some sid)
    ∧ (∀ st' a, Step inv st st' → st.slot = some a → st'.slot = none →
        termOrAbsent st'.store a) := by
  obtain ⟨h1, h2, h3, h4⟩ := inv_reachable inv st h
  refine ⟨?_, h1, ?_⟩
  · intro s1 s2 r1 r2 hr1 ha1 hr2 ha2
    have e1 := h1 s1 r1 hr1 ha1
    have e2 := h1 s2 r2 hr2 ha2
    rw [e1] at e2
    exact Option.some.inj e2
  · intro st' a hstep hsome hnone
    cases hstep with
    | deploy sid pb hi hs =>
      rw [hs] at hsome
      cases hsome
    | writeStarted sid pb pre post hT =>
      have hx : st.slot = none := hnone
      rw [hsome] at hx
      cases hx
    | spawnSupTask sid pb pre post hT =>
      have hx : st.slot = none := hnone
      rw [hsome] at hx
      cases hx
    | supUpdRunning sid pb pre post hT =>
      have hx : st.slot = none := hnone
      rw [hsome] at hx
      cases hx
    | supSpawnOk sid pb pre post hT =>
      have hx : st.slot = none := hnone
      rw [hsome] at hx
      cases hx
    | supSpawnFail sid pb pre post hT =>
      have hx : st.slot = none := hnone
      rw [hsome] at hx
      cases hx
    | supStreamEnd sid pb pre post hT =>
      have hx : st.slot = none := hnone
      rw [hsome] at hx
      cases hx
    | supExit sid pb c pre post hT =>
      have hx : st.slot = none := hnone
      rw [hsome] at hx
      cases hx
    | supUpdTerm sid pb c pre post hT =>
      have hx : st.slot = none := hnone
      rw [hsome] at hx
      cases hx
    | supPubTerm sid pb c pre post hT =>
      have hx : st.slot = none := hnone
      rw [hsome] at hx
      cases hx
    | supUpdFail sid pb pre post hT =>
      have hx : st.slot = none := hnone
      rw [hsome] at hx
      cases hx
    | supPubErr sid pb pre post hT =>
      have hx : st.slot = none := hnone
      rw [hsome] at hx
      cases hx
    | supClear sid pb pre post hT =>
      obtain ⟨hpre, hpost⟩ := split_singleton pre post _
        (by rw [← hT]; exact h4)
      subst hpre; subst hpost
      have hslot : st.slot = some sid :=
        slot_of_single_task st (Task.sup sid pb SupPC.clearing) h2
          (by simpa using hT)
      have ha : a = sid := by
        rw [hslot] at hsome
        exact (Option.some.inj hsome).symm
      subst ha
      exact h3 (Task.sup a pb SupPC.clearing) (by rw [hT]; simp) trivial
    | expire sid r hE =>
      have hx : st.slot = none := hnone
      rw [hsome] at hx
      cases hx

theorem c1_global_run_exclusivity_witness :
    (∀ s1 s2 r1 r2, initState.store s1 = some r1 → recActive r1 →
        initState.store s2 = some r2 → recActive r2 → s1 = s2)
    ∧ (∀ sid r, initState.store sid = some r → recActive r →
        initState.slot = some sid)
    ∧ (∀ st' a, Step (fun _ => true) initState st' →
        initState.slot = some a → st'.slot = none →
        termOrAbsent st'.store a) :=
  c1_global_run_exclusivity (fun _ => true) initState
    Relation.ReflTransGen.refl

/-- Outcome of one deploy request, with its HTTP status. -/
inductive DeployResult where
  | notFound
  | conflict (holder : String)
  | accepted (sid pb : String)
deriving DecidableEq, Repr

/-- HTTP status code of a deploy outcome (404 missing inventory, 409
deployment in progress, 200 started). -/
def DeployResult.httpCode : DeployResult → Nat
  | DeployResult.notFound => 404
  | DeployResult.conflict _ => 409
  | DeployResult.accepted _ _ => 200

/-- `start_deployment` as one request/response transformation: verify the
session's inventory exists (else 404), check the admission slot (else 409
naming the holder, with no state change), then take the slot, write the
started record and create the supervisor task, answering 200 with
status started. -/
def start_deployment (inv : String → Bool) (st : SysState)
    (sid pb : String) : SysState × DeployResult :=
  if inv sid = true then
    match st.slot with
    | some holder => (st, DeployResult.conflict holder)
    | none =>
      ({ slot := some sid,
         store := set_deployment_status st.store sid (startedRecord pb),
         tasks := Task.sup sid pb SupPC.updRunning :: st.tasks },
       DeployResult.accepted sid pb)
  else (st, DeployResult.notFound)

/-- C4: Admission denial is side-effect free.  While a deployment for
session A holds the slot, a deploy request for session B whose inventory
exists returns 409 and returns the state unchanged — the held slot, A's
status record and B's (absent) record are all untouched; and once the slot
is free (A reached a terminal status and the supervisor's cleanup cleared
it), the same request for B is granted and B becomes the holder. -/
theorem c4_admission_denial_side_effect_free (inv : String → Bool)
    (stA stB : SysState) (a b pb : String)
    (hheld : stA.slot = some a) (hinvB : inv b = true)
    (hfree : stB.slot = none) :
    start_deployment inv stA b pb = (stA, DeployResult.conflict a)
    ∧ (start_deployment inv stA b pb).2.httpCode = 409
    ∧ (start_deployment inv stB b pb).2 = DeployResult.accepted b pb
    ∧ (start_deployment inv stB b pb).1.slot = some b := by
  have hA : start_deployment inv stA b pb = (stA, DeployResult.conflict a) := by
    unfold start_deployment
    rw [if_pos hinvB, hheld]
  have hB : (start_deployment inv stB b pb).2 = DeployResult.accepted b pb := by
    unfold start_deployment
    rw [if_pos hinvB, hfree]
  have hB2 : (start_deployment inv stB b pb).1.slot = some b := by
    unfold start_deployment
    rw [if_pos hinvB, hfree]
  exact ⟨hA, by rw [hA]; rfl, hB, hB2⟩

/-- A state in which session A holds the admission slot. -/
def c4HeldState : SysState :=
  { slot := some "A", store := fun _ => none, tasks := [] }

theorem c4_admission_denial_side_effect_free_witness :
    start_deployment (fun _ => true) c4HeldState "B" "cluster.yml"
        = (c4HeldState, DeployResult.conflict "A")
    ∧ DeployResult.httpCode
        (start_deployment (fun _ => true) c4HeldState "B" "cluster.yml").2
        = 409
    ∧ (start_deployment (fun _ => true) initState "B" "cluster.yml").2
        = DeployResult.accepted "B" "cluster.yml"
    ∧ SysState.slot
        (start_deployment (fun _ => true) initState "B" "cluster.yml").1
        = some "B" :=
  c4_admission_denial_side_effect_free (fun _ => true) c4HeldState initState
    "A" "B" "cluster.yml" rfl rfl rfl

end CKEP
